import Mathlib

/-!
Verification of the generation → validation → execution → healing core of the
SQLAgentic repository (file `src/sql_agent.py`, class `SQLAgent`).

The Python code is shallowly embedded: strings are Lean `String`s (operated on
as `List Char`), the regular-expression uses of the source
(`re.search(r'\bKEYWORD\b', ...)` and the fenced-code-block pattern
`'''(?:sql)?\s*(.*?)\s*'''`) are translated into executable character-list
scanners with the same semantics on ASCII text, and the retry loop
`execute_with_retry` becomes a structurally recursive function over the
remaining attempt budget, parameterised by two oracles standing for the two
external effects: the generation backend (`ollama` chat call) and the
database executor (`db_manager.execute_query`).  Python truthiness of the
`Optional[str]` locals `previous_sql` / `error_message` (both `None` and the
empty string are falsy) is modelled by `pyTruthy`.
-/

set_option maxRecDepth 16384

namespace SQLAgentic

/-- Python word character for `\b` boundaries of `re` (ASCII fragment):
letters, digits and underscore. -/
def isWordChar (c : Char) : Bool := c.isAlphanum || c == '_'

/-- Python whitespace recognised by `str.strip()` and by `\s` in the regular
expressions of the source (ASCII fragment): space, tab, newline, carriage
return, vertical tab, form feed. -/
def pyWsChar (c : Char) : Bool :=
  c == ' ' || c == '\t' || c == '\n' || c == '\r' || c == '\x0b' || c == '\x0c'

/-- Model of `str.lstrip()` on character lists. -/
def pyLStrip (l : List Char) : List Char := l.dropWhile pyWsChar

/-- Model of `str.rstrip()` on character lists. -/
def pyRStrip (l : List Char) : List Char := (pyLStrip l.reverse).reverse

/-- Model of `str.strip()` on character lists. -/
def pyStrip (l : List Char) : List Char := pyRStrip (pyLStrip l)

/-- If `pat` is a prefix of `s`, return the remainder of `s`, else `none`. -/
def takePrefixEq : List Char → List Char → Option (List Char)
  | [], s => some s
  | _ :: _, [] => none
  | p :: ps, c :: cs => if p == c then takePrefixEq ps cs else none

/-- Substring (contiguous) occurrence test: Python's `needle in hay`. -/
def substrB (needle : List Char) : List Char → Bool
  | [] => needle == []
  | c :: cs => (takePrefixEq needle (c :: cs)).isSome || substrB needle cs

/-- Membership test `needle in hay` on strings. -/
def strContains (needle hay : String) : Bool := substrB needle.toList hay.toList

/-- Occurrence of `pat` in `s` at character offset `q`. -/
def occAtB (pat s : List Char) (q : Nat) : Bool := (takePrefixEq pat (s.drop q)).isSome

/-- Offset of the leftmost occurrence of `pat` in `s`, if any
(Python `s.find(pat)` restricted to found/not-found). -/
def firstOccIdx (pat : List Char) : List Char → Option Nat
  | [] => if (takePrefixEq pat ([] : List Char)).isSome then some 0 else none
  | c :: cs =>
    if (takePrefixEq pat (c :: cs)).isSome then some 0
    else (firstOccIdx pat cs).map (· + 1)

/-- The characters of `s` strictly before the leftmost occurrence of `sep`
(`s.split(sep)[0]` when `sep` occurs; `s` itself when it does not). -/
def takeBeforeFirst (sep : List Char) : List Char → List Char
  | [] => []
  | c :: cs =>
    if (takePrefixEq sep (c :: cs)).isSome then []
    else c :: takeBeforeFirst sep cs

/-- Boundary condition of `\b` to the left of a keyword made of word
characters: start of text, or a non-word character. -/
def boundaryOkBefore : Option Char → Bool
  | none => true
  | some c => !isWordChar c

/-- Boundary condition of `\b` to the right of a keyword made of word
characters: end of text, or a non-word character. -/
def boundaryOkAfter : List Char → Bool
  | [] => true
  | c :: _ => !isWordChar c

/-- Does `kw` occur at the head of `s`, with `\b` satisfied on both sides?
`prev` is the character immediately before `s` (`none` at start of text). -/
def hereMatch (kw : List Char) (prev : Option Char) (s : List Char) : Bool :=
  boundaryOkBefore prev &&
    (match takePrefixEq kw s with
     | some rest => boundaryOkAfter rest
     | none => false)

/-- Scanner for `re.search(r'\b' + kw + r'\b', s)` where `kw` consists of word
characters: true iff a boundary-delimited occurrence of `kw` exists in `s`. -/
def wbFindAux (kw : List Char) (prev : Option Char) : List Char → Bool
  | [] => hereMatch kw prev []
  | c :: cs => hereMatch kw prev (c :: cs) || wbFindAux kw (some c) cs

/-- Model of `re.search(r'\bKW\b', s)` as a boolean, on strings. -/
def reSearchWordB (kw s : String) : Bool := wbFindAux kw.toList none s.toList

/-- Source list `SQLAgent.DESTRUCTIVE_KEYWORDS` (src/sql_agent.py lines 21-24). -/
def DESTRUCTIVE_KEYWORDS : List String :=
  ["DROP", "DELETE", "UPDATE", "TRUNCATE", "ALTER", "INSERT",
   "CREATE", "GRANT", "REVOKE", "EXEC", "EXECUTE"]

/-- Message of the `SafetyViolationError` raised by `validate_sql_safety`. -/
def safetyMessage (keyword : String) : String :=
  "🚫 SAFETY VIOLATION: Query contains destructive keyword \x27" ++ keyword ++
    "\x27. This agent is read-only and cannot execute write operations."

/-- Model of `str.upper()` (ASCII fragment: `Char.toUpper` uppercases the
ASCII letters and fixes everything else, as Python does on ASCII text). -/
def pyUpper (s : String) : String := (s.toList.map Char.toUpper).asString

/-- The first keyword of `DESTRUCTIVE_KEYWORDS` (in list order, as the source
iterates) with a boundary-delimited occurrence in `sql.upper()`. -/
def firstViolation (sql : String) : Option String :=
  DESTRUCTIVE_KEYWORDS.find? (fun keyword => reSearchWordB keyword (pyUpper sql))

/-- Model of `SQLAgent.validate_sql_safety` (src/sql_agent.py lines 172-196): uppercase
the query, scan the destructive keywords in order, raise
`SafetyViolationError` on the first boundary-delimited match, else return
`True`.  The raise is modelled as `Except.error` with the raised message. -/
def validate_sql_safety (sql : String) : Except String Bool :=
  match firstViolation sql with
  | some keyword => .error (safetyMessage keyword)
  | none => .ok true

/-- Model of `SQLAgent._build_initial_prompt` (src/sql_agent.py lines 104-123),
with the f-string holes for the schema context and the user question. -/
def _build_initial_prompt (schema_context user_query : String) : String :=
  "Given the database schema below, write a SQL Server query to answer the user\x27s question.\n\nDATABASE SCHEMA:\n"
    ++ schema_context
    ++ "\n\nUSER QUESTION:\n"
    ++ user_query
    ++ "\n\nRULES:\n- Return ONLY the SQL query, no explanations\n- Use proper SQL Server T-SQL syntax\n- Use TOP instead of LIMIT for row limiting\n- Always use table aliases for clarity\n- Use square brackets for table/column names with spaces\n- Return only SELECT queries (no INSERT, UPDATE, DELETE, DROP, etc.)\n- Include appropriate WHERE, JOIN, GROUP BY, ORDER BY clauses as needed\n\nSQL Query:"

/-- Model of `SQLAgent._build_healing_prompt` (src/sql_agent.py lines 125-144). -/
def _build_healing_prompt (schema_context user_query previous_sql error_message : String) : String :=
  "The previous SQL query failed. Please fix it based on the error message.\n\nDATABASE SCHEMA:\n"
    ++ schema_context
    ++ "\n\nORIGINAL USER QUESTION:\n"
    ++ user_query
    ++ "\n\nPREVIOUS SQL QUERY (FAILED):\n"
    ++ previous_sql
    ++ "\n\nERROR MESSAGE:\n"
    ++ error_message
    ++ "\n\nPlease generate a corrected SQL query that fixes this error. Return ONLY the corrected SQL query.\n\nCorrected SQL Query:"

/-- Python truthiness of an `Optional[str]`: `None` and `''` are falsy. -/
def pyTruthy : Option String → Bool
  | none => false
  | some s => !s.isEmpty

/-- The prompt chosen by `SQLAgent.generate_safe_sql` (src/sql_agent.py lines
68-74): the healing prompt when `previous_sql and error_message` is truthy,
the initial prompt otherwise. -/
def generate_prompt (schema_context user_query : String)
    (previous_sql error_message : Option String) : String :=
  if pyTruthy previous_sql && pyTruthy error_message then
    _build_healing_prompt schema_context user_query
      (previous_sql.getD "") (error_message.getD "")
  else
    _build_initial_prompt schema_context user_query

/-- The opening/closing fence of a markdown code block. -/
def ticks : List Char := "```".toList

/-- Consume the optional case-insensitive `sql` language tag after an opening
fence: `(?:sql)?` with `re.IGNORECASE`. -/
def dropSqlTag (t : List Char) : List Char :=
  match t with
  | a :: b :: c :: rest =>
    if a.toLower == 's' && b.toLower == 'q' && c.toLower == 'l' then rest
    else a :: b :: c :: rest
  | t => t

/-- Attempt the regex `(?:sql)?\s*(.*?)\s*` + closing fence on the text `t`
following an opening fence, returning the capture group of the leftmost
shortest match: after the optional tag and the greedy whitespace run, the
capture extends to the first closing fence, with its maximal trailing
whitespace run absorbed by the trailing `\s*`. -/
def tryFenceAt (t : List Char) : Option (List Char) :=
  let t2 := (dropSqlTag t).dropWhile pyWsChar
  (firstOccIdx ticks t2).map (fun f => pyRStrip (t2.take f))

/-- Model of `re.findall(r'```(?:sql)?\s*(.*?)\s*```', s, re.DOTALL | re.IGNORECASE)`,
first capture: scan left to right for a position where the full pattern
matches, as the backtracking engine does. -/
def findFirstFence : List Char → Option (List Char)
  | [] => none
  | c :: cs =>
    match takePrefixEq ticks (c :: cs) with
    | some t =>
      (match tryFenceAt t with
       | some cap => some cap
       | none => findFirstFence cs)
    | none => findFirstFence cs

/-- Separator `'\n\nThis query'`, first explanation separator of `_extract_sql`. -/
def sepThisQuery : List Char := "\n\nThis query".toList

/-- Separator `'\n\nExplanation'`, second explanation separator of `_extract_sql`. -/
def sepExplanation : List Char := "\n\nExplanation".toList

/-- Separator `'\n\nNote:'`, third explanation separator of `_extract_sql`. -/
def sepNote : List Char := "\n\nNote:".toList

/-- One iteration of the separator loop of `_extract_sql`:
`if separator in sql: sql = sql.split(separator)[0].strip()`. -/
def splitStep (sep s : List Char) : List Char :=
  if substrB sep s then pyStrip (takeBeforeFirst sep s) else s

/-- The separator loop of `_extract_sql` (src/sql_agent.py lines 166-168),
applied in source order. -/
def truncSteps (s : List Char) : List Char :=
  splitStep sepNote (splitStep sepExplanation (splitStep sepThisQuery s))

/-- Model of `SQLAgent._extract_sql` (src/sql_agent.py lines 146-170) on character
lists: strip, take the first fenced code block if the pattern matches
(stripped), strip again, then truncate at the explanation separators. -/
def extract_sql_list (response_text : List Char) : List Char :=
  let sql0 := pyStrip response_text
  let sql1 :=
    match findFirstFence sql0 with
    | some cap => pyStrip cap
    | none => sql0
  truncSteps (pyStrip sql1)

/-- Model of `SQLAgent._extract_sql` on strings. -/
def _extract_sql (response_text : String) : String :=
  (extract_sql_list response_text.toList).asString

/-- What one iteration of the `execute_with_retry` loop ends with:
the generation backend raised (`GenerationError`), the safety validation
raised (`SafetyViolationError`), the executor raised (`ExecutionError`),
or the query executed and the iteration returned.  `α` is the type of the
executor result (the `pandas.DataFrame`). -/
inductive AttemptOut (α : Type) where
  | genFail (err : String)
  | safety (msg : String)
  | execFail (sql : String) (err : String)
  | success (sql : String) (df : α)
  deriving DecidableEq, Repr

/-- One attempt of the loop: the prompt sent to the generation backend, and
how the attempt ended. -/
structure AttemptRec (α : Type) where
  prompt : String
  out : AttemptOut α
  deriving DecidableEq, Repr

/-- The Python locals of `execute_with_retry` threaded between iterations:
`previous_sql` and `error_message` (lines 212-213, reassigned at lines
238-239) and the binding of the loop-body local `sql`, which persists across
iterations and is consulted by `sql if 'sql' in locals() else None`. -/
structure LoopState where
  previous_sql : Option String
  error_message : Option String
  localSql : Option String
  deriving DecidableEq, Repr

/-- Terminal result of `execute_with_retry`: `return df, sql`;
a re-raised `SafetyViolationError`; the final
`raise Exception(f"Failed after ... attempts. Last error: ...")`;
or the implicit `return None` when the `for` loop body never runs. -/
inductive Outcome (α : Type) where
  | success (df : α) (sql : String)
  | safetyViolation (msg : String)
  | exhausted (msg : String)
  | pyNone
  deriving DecidableEq, Repr

/-- Trace of one run of `execute_with_retry`: every attempt in order,
and the terminal result. -/
structure RunResult (α : Type) where
  attempts : List (AttemptRec α)
  outcome : Outcome α
  deriving DecidableEq, Repr

/-- Message of the exception raised when the budget is exhausted
(src/sql_agent.py line 245). -/
def exhaustMsg (max_retries : Nat) (error_message : String) : String :=
  "Failed after " ++ toString max_retries ++ " attempts. Last error: " ++ error_message

/-- One iteration of the loop body of `execute_with_retry` at attempt number
`k`: build the prompt from the carried state (`generate_safe_sql`, lines
68-74), call the generation backend oracle `llm`, extract the query text
(`_extract_sql`), validate it (`validate_sql_safety`), and run the executor
oracle `ex`.  The oracles take the attempt number so that distinct calls may
behave differently, as the external backend and database may. -/
def runAttempt {α : Type} (llm : Nat → String → Except String String)
    (ex : Nat → String → Except String α)
    (schema_context user_query : String) (k : Nat) (st : LoopState) :
    AttemptRec α :=
  let prompt := generate_prompt schema_context user_query st.previous_sql st.error_message
  match llm k prompt with
  | .error e => ⟨prompt, .genFail e⟩
  | .ok raw =>
    let sql := _extract_sql raw
    match validate_sql_safety sql with
    | .error m => ⟨prompt, .safety m⟩
    | .ok _ =>
      match ex k sql with
      | .error e => ⟨prompt, .execFail sql e⟩
      | .ok df => ⟨prompt, .success sql df⟩

/-- The loop state after a failed attempt, as assigned at lines 238-239:
`error_message = str(e)`; `previous_sql = sql if 'sql' in locals() else None`.
After a generation failure the local `sql` is whatever earlier iteration last
bound it to; after an execution failure it is this attempt's query. -/
def stepState (st : LoopState) : AttemptOut α → LoopState
  | .genFail e => ⟨st.localSql, some e, st.localSql⟩
  | .execFail sql e => ⟨some sql, some e, some sql⟩
  | _ => st

/-- The `for attempt in range(1, max_retries + 1)` loop of
`execute_with_retry` (src/sql_agent.py lines 215-247), structurally recursive
on the remaining budget.  `k` is the attempt number of the next iteration and
`max_retries` the constant bound used in the exhaustion message.  A
`SafetyViolationError` is re-raised at once; other failures either recurse
with the updated state or, when `attempt == max_retries`, raise the
exhaustion exception. -/
def loopGo {α : Type} (llm : Nat → String → Except String String)
    (ex : Nat → String → Except String α)
    (schema_context user_query : String) (max_retries : Nat) :
    Nat → Nat → LoopState → RunResult α
  | _, 0, _ => ⟨[], .pyNone⟩
  | k, r + 1, st =>
    let a := runAttempt llm ex schema_context user_query k st
    match a.out with
    | .success sql df => ⟨[a], .success df sql⟩
    | .safety m => ⟨[a], .safetyViolation m⟩
    | .genFail e =>
      if r = 0 then ⟨[a], .exhausted (exhaustMsg max_retries e)⟩
      else
        let res := loopGo llm ex schema_context user_query max_retries (k + 1) r (stepState st (AttemptOut.genFail e : AttemptOut α))
        ⟨a :: res.attempts, res.outcome⟩
    | .execFail sql e =>
      if r = 0 then ⟨[a], .exhausted (exhaustMsg max_retries e)⟩
      else
        let res := loopGo llm ex schema_context user_query max_retries (k + 1) r (stepState st (AttemptOut.execFail sql e : AttemptOut α))
        ⟨a :: res.attempts, res.outcome⟩

/-- Model of `SQLAgent.execute_with_retry` (src/sql_agent.py lines 198-247):
run the loop from attempt 1 with `previous_sql = None`, `error_message = None`
and the local `sql` unbound. -/
def execute_with_retry {α : Type} (llm : Nat → String → Except String String)
    (ex : Nat → String → Except String α)
    (schema_context user_query : String) (max_retries : Nat) : RunResult α :=
  loopGo llm ex schema_context user_query max_retries 1 max_retries ⟨none, none, none⟩

/-- The query text an attempt passed to `db_manager.execute_query`, if the
attempt reached execution. -/
def outSql {α : Type} : AttemptOut α → Option String
  | .execFail sql _ => some sql
  | .success sql _ => some sql
  | _ => none

/-- The query texts passed to `db_manager.execute_query`, in order: one for
every attempt that reached execution. -/
def execCallsOf {α : Type} (attempts : List (AttemptRec α)) : List String :=
  attempts.filterMap fun a => outSql a.out

/-- The generation error of an attempt whose backend call raised, if so. -/
def outGenErr {α : Type} : AttemptOut α → Option String
  | .genFail e => some e
  | _ => none

/-- The attempts whose generation-backend call raised. -/
def genFailuresOf {α : Type} (attempts : List (AttemptRec α)) : List String :=
  attempts.filterMap fun a => outGenErr a.out

/-- The retryable error recorded by an attempt, if any. -/
def outErr {α : Type} : AttemptOut α → Option String
  | .genFail e => some e
  | .execFail _ e => some e
  | _ => none

/-! ### Characterisation of the scanners -/

theorem takePrefixEq_eq_some_iff {p s r : List Char} :
    takePrefixEq p s = some r ↔ s = p ++ r := by
  induction p generalizing s with
  | nil => simp [takePrefixEq]
  | cons a p ih =>
    cases s with
    | nil => simp [takePrefixEq]
    | cons c cs =>
      by_cases h : a = c
      · subst h
        simp [takePrefixEq, ih]
      · simp [takePrefixEq, h, Ne.symm h]

theorem takePrefixEq_isSome_iff {p s : List Char} :
    (takePrefixEq p s).isSome = true ↔ ∃ r, s = p ++ r := by
  rw [Option.isSome_iff_exists]
  constructor
  · rintro ⟨r, hr⟩; exact ⟨r, takePrefixEq_eq_some_iff.mp hr⟩
  · rintro ⟨r, hr⟩; exact ⟨r, takePrefixEq_eq_some_iff.mpr hr⟩

theorem substrB_eq_true_iff {n h : List Char} :
    substrB n h = true ↔ ∃ pre post, h = pre ++ n ++ post := by
  induction h with
  | nil =>
    simp only [substrB, beq_iff_eq]
    constructor
    · rintro rfl; exact ⟨[], [], rfl⟩
    · rintro ⟨pre, post, hp⟩
      rcases List.append_eq_nil.mp (List.append_eq_nil.mp hp.symm).1 with ⟨-, h2⟩
      exact h2
  | cons c cs ih =>
    simp only [substrB, Bool.or_eq_true, takePrefixEq_isSome_iff, ih]
    constructor
    · rintro (⟨r, hr⟩ | ⟨pre, post, hp⟩)
      · exact ⟨[], r, by simpa using hr⟩
      · exact ⟨c :: pre, post, by simp [hp]⟩
    · rintro ⟨pre, post, hp⟩
      cases pre with
      | nil => exact Or.inl ⟨post, by simpa using hp⟩
      | cons p ps =>
        right
        simp only [List.cons_append, List.cons.injEq] at hp
        exact ⟨ps, post, hp.2⟩

theorem strContains_of_append {n a b : String} :
    strContains n (a ++ n ++ b) = true := by
  rw [strContains, substrB_eq_true_iff]
  exact ⟨a.toList, b.toList, by simp⟩

/-- Left-boundary condition satisfied by the text `pre` preceding a match:
if `pre` is empty the virtual previous character `prev` must pass `\b`,
otherwise the last character of `pre` must not be a word character. -/
def BeforeOkP (prev : Option Char) (pre : List Char) : Prop :=
  (pre = [] → boundaryOkBefore prev = true) ∧
    (∀ c, pre.getLast? = some c → isWordChar c = false)

theorem hereMatch_eq_true_iff {kw : List Char} {prev : Option Char} {s : List Char} :
    hereMatch kw prev s = true ↔
      boundaryOkBefore prev = true ∧ ∃ post, s = kw ++ post ∧ boundaryOkAfter post = true := by
  unfold hereMatch
  rw [Bool.and_eq_true]
  refine and_congr_right fun _ => ?_
  rcases hte : takePrefixEq kw s with - | r
  · simp only [Bool.false_eq_true, false_iff]
    rintro ⟨post, hp, -⟩
    rw [show takePrefixEq kw s = some post from takePrefixEq_eq_some_iff.mpr hp] at hte
    exact Option.noConfusion hte
  · have hr := takePrefixEq_eq_some_iff.mp hte
    constructor
    · intro hb; exact ⟨r, hr, hb⟩
    · rintro ⟨post, hp, hb⟩
      have : r = post := by
        have := hp ▸ hr
        exact List.append_cancel_left (hr.symm.trans hp)
      exact this ▸ hb

theorem wbFindAux_eq_true_iff {kw : List Char} {prev : Option Char} {s : List Char} :
    wbFindAux kw prev s = true ↔
      ∃ pre post, s = pre ++ kw ++ post ∧ BeforeOkP prev pre ∧ boundaryOkAfter post = true := by
  induction s generalizing prev with
  | nil =>
    rw [wbFindAux, hereMatch_eq_true_iff]
    constructor
    · rintro ⟨hb, post, hp, ha⟩
      exact ⟨[], post, by simpa using hp, ⟨fun _ => hb, by simp⟩, ha⟩
    · rintro ⟨pre, post, hp, ⟨hb, -⟩, ha⟩
      have hpre : pre = [] := List.append_eq_nil.mp (List.append_eq_nil.mp hp.symm).1 |>.1
      subst hpre
      exact ⟨hb rfl, post, by simpa using hp, ha⟩
  | cons c cs ih =>
    rw [wbFindAux, Bool.or_eq_true, hereMatch_eq_true_iff, ih]
    constructor
    · rintro (⟨hb, post, hp, ha⟩ | ⟨pre, post, hp, hbo, ha⟩)
      · exact ⟨[], post, by simpa using hp, ⟨fun _ => hb, by simp⟩, ha⟩
      · refine ⟨c :: pre, post, by simp [hp], ⟨by simp, ?_⟩, ha⟩
        intro d hd
        cases pre with
        | nil =>
          simp only [List.getLast?_singleton, Option.some.injEq] at hd
          subst hd
          have := hbo.1 rfl
          simpa [boundaryOkBefore] using this
        | cons p ps =>
          rw [List.getLast?_cons_cons] at hd
          exact hbo.2 d hd
    · rintro ⟨pre, post, hp, hbo, ha⟩
      cases pre with
      | nil => exact Or.inl ⟨hbo.1 rfl, post, by simpa using hp, ha⟩
      | cons p ps =>
        right
        simp only [List.cons_append, List.cons.injEq] at hp
        obtain ⟨rfl, hcs⟩ := hp
        refine ⟨ps, post, hcs, ⟨?_, ?_⟩, ha⟩
        · intro hps
          subst hps
          have := hbo.2 c (by simp)
          simp [boundaryOkBefore, this]
        · intro d hd
          refine hbo.2 d ?_
          cases ps with
          | nil => exact Option.noConfusion hd
          | cons q qs => rwa [List.getLast?_cons_cons]

/-- A case-insensitive whole-word occurrence of the (uppercase) keyword `kw`
in the query `s`, as the spec words it: an occurrence of `kw` in `s.upper()`
that is not preceded and not followed by a word character. -/
def WholeWordOcc (kw s : String) : Prop :=
  ∃ pre post : List Char, (pyUpper s).toList = pre ++ kw.toList ++ post ∧
    (∀ c, pre.getLast? = some c → isWordChar c = false) ∧
    (∀ c, post.head? = some c → isWordChar c = false)

theorem reSearchWordB_toUpper_iff {kw s : String} :
    reSearchWordB kw (pyUpper s) = true ↔ WholeWordOcc kw s := by
  rw [reSearchWordB, wbFindAux_eq_true_iff, WholeWordOcc]
  constructor
  · rintro ⟨pre, post, hp, hbo, ha⟩
    refine ⟨pre, post, hp, hbo.2, ?_⟩
    intro c hc
    cases post with
    | nil => exact Option.noConfusion hc
    | cons d ds =>
      simp only [List.head?_cons, Option.some.injEq] at hc
      subst hc
      simpa [boundaryOkAfter] using ha
  · rintro ⟨pre, post, hp, hl, hr⟩
    refine ⟨pre, post, hp, ⟨fun _ => rfl, hl⟩, ?_⟩
    cases post with
    | nil => simp [boundaryOkAfter]
    | cons d ds => simpa [boundaryOkAfter] using hr d rfl

theorem find?_eq_some_split {α : Type} {p : α → Bool} {l : List α} {a : α}
    (h : l.find? p = some a) :
    p a = true ∧ ∃ l1 l2, l = l1 ++ a :: l2 ∧ ∀ x ∈ l1, p x = false := by
  induction l with
  | nil => exact absurd h (by simp)
  | cons b bs ih =>
    rcases hb : p b with - | -
    · rw [List.find?_cons_of_neg _ (by simp [hb])] at h
      obtain ⟨hpa, l1, l2, hl, hprev⟩ := ih h
      refine ⟨hpa, b :: l1, l2, by simp [hl], ?_⟩
      intro x hx
      rcases List.mem_cons.mp hx with rfl | hx
      · exact hb
      · exact hprev x hx
    · rw [List.find?_cons_of_pos _ hb] at h
      have hab : b = a := by injection h
      subst hab
      exact ⟨hb, [], bs, rfl, by simp⟩

/-- Claim C8: `validate_sql_safety(sql)` returns `True` exactly when `sql`
has no case-insensitive whole-word occurrence of any blocked keyword; on a
match it raises, and the raised message identifies the offending keyword —
namely the first keyword of `DESTRUCTIVE_KEYWORDS` (in the order the source
iterates) that matches; every keyword checked before it has no match, and no
keyword after it is examined. -/
theorem C8_validate_sql_safety_spec (sql : String) :
    (validate_sql_safety sql = .ok true ↔
      ∀ kw ∈ DESTRUCTIVE_KEYWORDS, ¬ WholeWordOcc kw sql) ∧
    (∀ m, validate_sql_safety sql = .error m →
      ∃ kw, kw ∈ DESTRUCTIVE_KEYWORDS ∧ WholeWordOcc kw sql ∧
        m = safetyMessage kw ∧ strContains kw m = true ∧
        ∃ l1 l2, DESTRUCTIVE_KEYWORDS = l1 ++ kw :: l2 ∧
          ∀ kw2 ∈ l1, ¬ WholeWordOcc kw2 sql) := by
  unfold validate_sql_safety
  rcases hv : firstViolation sql with - | kw
  · rw [firstViolation, List.find?_eq_none] at hv
    constructor
    · simp only [true_iff]
      intro kw hkw hocc
      exact absurd (reSearchWordB_toUpper_iff.mpr hocc) (by simpa using hv kw hkw)
    · intro m hm
      exact Except.noConfusion hm
  · obtain ⟨hpa, l1, l2, hl, hprev⟩ := find?_eq_some_split hv
    have hmem : kw ∈ DESTRUCTIVE_KEYWORDS := hl ▸ List.mem_append_right l1 (List.mem_cons_self kw l2)
    have hocc : WholeWordOcc kw sql := reSearchWordB_toUpper_iff.mp hpa
    constructor
    · simp only [reduceCtorEq, false_iff, not_forall]
      exact ⟨kw, hmem, by simp [hocc]⟩
    · intro m hm
      have hmsg : m = safetyMessage kw := by injection hm.symm
      subst hmsg
      refine ⟨kw, hmem, hocc, rfl, ?_, l1, l2, hl, ?_⟩
      · rw [safetyMessage]
        exact strContains_of_append
      · intro kw2 hkw2 hocc2
        exact absurd (reSearchWordB_toUpper_iff.mpr hocc2) (by simpa using hprev kw2 hkw2)

/-- Witness for C8 at the concrete query `"drop table students"`: validation
raises with the message identifying `DROP`, and the theorem's error clause
applies there. -/
theorem C8_validate_sql_safety_spec_witness :
    validate_sql_safety "drop table students" = .error (safetyMessage "DROP") ∧
    ∃ kw, kw ∈ DESTRUCTIVE_KEYWORDS ∧ WholeWordOcc kw "drop table students" ∧
      safetyMessage "DROP" = safetyMessage kw ∧
      strContains kw (safetyMessage "DROP") = true ∧
      ∃ l1 l2, DESTRUCTIVE_KEYWORDS = l1 ++ kw :: l2 ∧
        ∀ kw2 ∈ l1, ¬ WholeWordOcc kw2 "drop table students" := by
  have h : validate_sql_safety "drop table students" = .error (safetyMessage "DROP") := by
    have hf : firstViolation "drop table students" = some "DROP" := by decide
    rw [validate_sql_safety, hf]
  exact ⟨h, (C8_validate_sql_safety_spec "drop table students").2 (safetyMessage "DROP") h⟩

/-! ### Structural lemmas about the retry loop -/

theorem loopGo_length {α : Type} (llm : Nat → String → Except String String)
    (ex : Nat → String → Except String α) (sc q : String) (N : Nat) :
    ∀ (r k : Nat) (st : LoopState),
      (loopGo llm ex sc q N k r st).attempts.length ≤ r := by
  intro r
  induction r with
  | zero => intro k st; simp [loopGo]
  | succ r ih =>
    intro k st
    rw [loopGo]
    split
    · simp
    · simp
    · split
      · simp
      · simpa using Nat.succ_le_succ (ih (k + 1) _)
    · split
      · simp
      · simpa using Nat.succ_le_succ (ih (k + 1) _)

theorem loopGo_mem_runAttempt {α : Type} (llm : Nat → String → Except String String)
    (ex : Nat → String → Except String α) (sc q : String) (N : Nat) :
    ∀ (r k : Nat) (st : LoopState) (a : AttemptRec α),
      a ∈ (loopGo llm ex sc q N k r st).attempts →
      ∃ k2 st2, a = runAttempt llm ex sc q k2 st2 := by
  intro r
  induction r with
  | zero => intro k st a ha; simp [loopGo] at ha
  | succ r ih =>
    intro k st a ha
    rw [loopGo] at ha
    split at ha
    · simp at ha; exact ⟨k, st, ha⟩
    · simp at ha; exact ⟨k, st, ha⟩
    · split at ha
      · simp at ha; exact ⟨k, st, ha⟩
      · simp only [List.mem_cons] at ha
        rcases ha with rfl | ha
        · exact ⟨k, st, rfl⟩
        · exact ih (k + 1) _ a ha
    · split at ha
      · simp at ha; exact ⟨k, st, ha⟩
      · simp only [List.mem_cons] at ha
        rcases ha with rfl | ha
        · exact ⟨k, st, rfl⟩
        · exact ih (k + 1) _ a ha

theorem runAttempt_outSql_validated {α : Type} {llm : Nat → String → Except String String}
    {ex : Nat → String → Except String α} {sc q : String} {k : Nat} {st : LoopState}
    {s : String} (h : outSql (runAttempt llm ex sc q k st).out = some s) :
    firstViolation s = none := by
  unfold runAttempt at h
  rcases hllm : llm k (generate_prompt sc q st.previous_sql st.error_message) with e | raw <;>
    simp only [hllm] at h
  · simp [outSql] at h
  · rcases hv : validate_sql_safety (_extract_sql raw) with m | b <;> simp only [hv] at h
    · simp [outSql] at h
    · have hfv : firstViolation (_extract_sql raw) = none := by
        revert hv
        unfold validate_sql_safety
        rcases firstViolation (_extract_sql raw) with - | kw
        · intro; rfl
        · intro hv; exact Except.noConfusion hv
      rcases hex : ex k (_extract_sql raw) with e | df <;> simp only [hex] at h <;>
        simp only [outSql, Option.some.injEq] at h <;> exact h ▸ hfv

/-- Claim C1: safety is absolute — in any run of `execute_with_retry`, with
any generation backend and executor behaviour, every query text passed to
`db_manager.execute_query` is free of case-insensitive whole-word occurrences
of every blocked keyword: a generated text containing such an occurrence is
never executed. -/
theorem C1_no_destructive_query_executed {α : Type}
    (llm : Nat → String → Except String String) (ex : Nat → String → Except String α)
    (schema_context user_query : String) (max_retries : Nat) (s : String)
    (hs : s ∈ execCallsOf (execute_with_retry llm ex schema_context user_query max_retries).attempts)
    (kw : String) (hkw : kw ∈ DESTRUCTIVE_KEYWORDS) :
    ¬ WholeWordOcc kw s := by
  intro hocc
  rw [execCallsOf, List.mem_filterMap] at hs
  obtain ⟨a, ha, hsql⟩ := hs
  obtain ⟨k2, st2, rfl⟩ :=
    loopGo_mem_runAttempt llm ex schema_context user_query max_retries
      max_retries 1 ⟨none, none, none⟩ a ha
  have hv := runAttempt_outSql_validated hsql
  rw [firstViolation, List.find?_eq_none] at hv
  exact absurd (reSearchWordB_toUpper_iff.mpr hocc) (by simpa using hv kw hkw)

/-- Oracle for the C1 witness run: the backend always answers with a fixed
safe query. -/
def llmW1 : Nat → String → Except String String := fun _ _ => .ok "SELECT name FROM t"

/-- Executor for the C1 witness run: execution always succeeds. -/
def exW1 : Nat → String → Except String Nat := fun _ _ => .ok 0

/-- Witness for C1: in the concrete one-attempt run driven by `llmW1` and
`exW1`, the executed text `"SELECT name FROM t"` is in the executor trace and
has no whole-word `DROP` occurrence. -/
theorem C1_no_destructive_query_executed_witness :
    "SELECT name FROM t" ∈ execCallsOf (execute_with_retry llmW1 exW1 "S" "Q" 1).attempts ∧
    ¬ WholeWordOcc "DROP" "SELECT name FROM t" := by
  have hm : "SELECT name FROM t" ∈
      execCallsOf (execute_with_retry llmW1 exW1 "S" "Q" 1).attempts := by decide
  exact ⟨hm, C1_no_destructive_query_executed llmW1 exW1 "S" "Q" 1 _ hm "DROP" (by decide)⟩

theorem loopGo_outcome_ne_pyNone {α : Type} (llm : Nat → String → Except String String)
    (ex : Nat → String → Except String α) (sc q : String) (N : Nat) :
    ∀ (r k : Nat) (st : LoopState), 0 < r →
      (loopGo llm ex sc q N k r st).outcome ≠ Outcome.pyNone := by
  intro r
  induction r with
  | zero => intro k st h; exact absurd h (by simp)
  | succ r ih =>
    rintro k st -
    rw [loopGo]
    split
    · simp
    · simp
    · split
      · simp
      · rename_i hr
        exact ih (k + 1) _ (Nat.pos_of_ne_zero hr)
    · split
      · simp
      · rename_i hr
        exact ih (k + 1) _ (Nat.pos_of_ne_zero hr)

/-- Claim C3: bounded attempts and guaranteed termination — for any budget
`N`, the (total, hence terminating) run of `execute_with_retry` performs at
most `N` attempts, so the generation backend is called at most `N` times
(one call per recorded attempt) and the executor at most `N` times; and for
`N ≥ 1` the run always ends in one of the three terminal ways — success,
the fatal safety stop, or the exhausted-retries failure — never in the
implicit `None` return (which only the empty `range` of `N = 0` produces). -/
theorem C3_bounded_attempts {α : Type}
    (llm : Nat → String → Except String String) (ex : Nat → String → Except String α)
    (schema_context user_query : String) (N : Nat) :
    (execute_with_retry llm ex schema_context user_query N).attempts.length ≤ N ∧
    (execCallsOf (execute_with_retry llm ex schema_context user_query N).attempts).length ≤ N ∧
    (1 ≤ N →
      (∃ df sql,
        (execute_with_retry llm ex schema_context user_query N).outcome =
          Outcome.success df sql) ∨
      (∃ m,
        (execute_with_retry llm ex schema_context user_query N).outcome =
          Outcome.safetyViolation m) ∨
      (∃ m,
        (execute_with_retry llm ex schema_context user_query N).outcome =
          Outcome.exhausted m)) := by
  refine ⟨loopGo_length llm ex schema_context user_query N N 1 _, ?_, ?_⟩
  · exact le_trans (List.length_filterMap_le _ _)
      (loopGo_length llm ex schema_context user_query N N 1 _)
  · intro hN
    have hne := loopGo_outcome_ne_pyNone llm ex schema_context user_query N N 1
      ⟨none, none, none⟩ (by omega)
    unfold execute_with_retry
    rcases ho : (loopGo llm ex schema_context user_query N 1 N ⟨none, none, none⟩).outcome
      with ⟨df, sql⟩ | m | m | -
    · exact Or.inl ⟨df, sql, rfl⟩
    · exact Or.inr (Or.inl ⟨m, rfl⟩)
    · exact Or.inr (Or.inr ⟨m, rfl⟩)
    · exact absurd ho hne

/-- Backend for the C3 witness run. -/
def llmW3 : Nat → String → Except String String := fun _ _ => .ok "SELECT 3"

/-- Executor for the C3 witness run. -/
def exW3 : Nat → String → Except String Nat := fun _ _ => .ok 0

/-- Witness for C3 at a concrete one-attempt run: both call counts are
within the budget and, the budget being positive, the outcome is one of the
three terminal forms. -/
theorem C3_bounded_attempts_witness :
    (execute_with_retry llmW3 exW3 "S" "Q" 1).attempts.length ≤ 1 ∧
    (execCallsOf (execute_with_retry llmW3 exW3 "S" "Q" 1).attempts).length ≤ 1 ∧
    ((∃ df sql, (execute_with_retry llmW3 exW3 "S" "Q" 1).outcome = Outcome.success df sql) ∨
     (∃ m, (execute_with_retry llmW3 exW3 "S" "Q" 1).outcome = Outcome.safetyViolation m) ∨
     (∃ m, (execute_with_retry llmW3 exW3 "S" "Q" 1).outcome = Outcome.exhausted m)) := by
  obtain ⟨h1, h2, h3⟩ := C3_bounded_attempts llmW3 exW3 "S" "Q" 1
  exact ⟨h1, h2, h3 (by omega)⟩

/-- Claim C10: with `max_retries = 0` (how the model renders any non-positive
budget: `range(1, max_retries + 1)` is empty), `execute_with_retry` makes no
attempt at all — no generation, no validation, no execution — and falls off
the loop, returning Python `None` rather than a result pair and rather than
raising. -/
theorem C10_zero_budget_returns_none {α : Type}
    (llm : Nat → String → Except String String) (ex : Nat → String → Except String α)
    (schema_context user_query : String) :
    (execute_with_retry llm ex schema_context user_query 0 : RunResult α) =
      ⟨[], Outcome.pyNone⟩ := rfl

/-- Attempt outcomes the loop retries on: a generation failure or an
execution failure (everything except success and the fatal safety stop). -/
def retryableOut {α : Type} : AttemptOut α → Bool
  | .genFail _ => true
  | .execFail _ _ => true
  | _ => false

theorem retryable_count {α : Type} : ∀ l : List (AttemptRec α),
    (∀ x ∈ l, retryableOut x.out = true) →
    (execCallsOf l).length + (genFailuresOf l).length = l.length := by
  intro l
  induction l with
  | nil => intro; simp [execCallsOf, genFailuresOf]
  | cons x xs ih =>
    intro h
    have hx := h x (List.mem_cons_self x xs)
    have hxs := ih fun y hy => h y (List.mem_cons_of_mem x hy)
    rcases hout : x.out with e | m | ⟨sql, e⟩ | ⟨sql, df⟩
    · simp only [execCallsOf, genFailuresOf, List.filterMap_cons, hout, outSql, outGenErr,
        List.length_cons] at hxs ⊢
      omega
    · rw [hout] at hx; simp [retryableOut] at hx
    · simp only [execCallsOf, genFailuresOf, List.filterMap_cons, hout, outSql, outGenErr,
        List.length_cons] at hxs ⊢
      omega
    · rw [hout] at hx; simp [retryableOut] at hx

theorem loopGo_succ_success {α : Type} {llm : Nat → String → Except String String}
    {ex : Nat → String → Except String α} {sc q : String} {N k r : Nat} {st : LoopState}
    {sql : String} {df : α}
    (heq : (runAttempt llm ex sc q k st).out = AttemptOut.success sql df) :
    loopGo llm ex sc q N k (r + 1) st =
      ⟨[runAttempt llm ex sc q k st], Outcome.success df sql⟩ := by
  rw [loopGo]
  split <;> rename_i h2 <;> rw [heq] at h2 <;> first
    | (cases h2; rfl)
    | exact AttemptOut.noConfusion h2

theorem loopGo_succ_safety {α : Type} {llm : Nat → String → Except String String}
    {ex : Nat → String → Except String α} {sc q : String} {N k r : Nat} {st : LoopState}
    {m : String}
    (heq : (runAttempt llm ex sc q k st).out = AttemptOut.safety m) :
    loopGo llm ex sc q N k (r + 1) st =
      ⟨[runAttempt llm ex sc q k st], Outcome.safetyViolation m⟩ := by
  rw [loopGo]
  split <;> rename_i h2 <;> rw [heq] at h2 <;> first
    | (cases h2; rfl)
    | exact AttemptOut.noConfusion h2

theorem loopGo_succ_genFail {α : Type} {llm : Nat → String → Except String String}
    {ex : Nat → String → Except String α} {sc q : String} {N k r : Nat} {st : LoopState}
    {e : String}
    (heq : (runAttempt llm ex sc q k st).out = AttemptOut.genFail e) :
    loopGo llm ex sc q N k (r + 1) st =
      if r = 0 then
        ⟨[runAttempt llm ex sc q k st], Outcome.exhausted (exhaustMsg N e)⟩
      else
        ⟨runAttempt llm ex sc q k st ::
            (loopGo llm ex sc q N (k + 1) r ⟨st.localSql, some e, st.localSql⟩).attempts,
          (loopGo llm ex sc q N (k + 1) r ⟨st.localSql, some e, st.localSql⟩).outcome⟩ := by
  rw [loopGo]
  split <;> rename_i h2 <;> rw [heq] at h2 <;> first
    | (cases h2; rfl)
    | exact AttemptOut.noConfusion h2

theorem loopGo_succ_execFail {α : Type} {llm : Nat → String → Except String String}
    {ex : Nat → String → Except String α} {sc q : String} {N k r : Nat} {st : LoopState}
    {sql e : String}
    (heq : (runAttempt llm ex sc q k st).out = AttemptOut.execFail sql e) :
    loopGo llm ex sc q N k (r + 1) st =
      if r = 0 then
        ⟨[runAttempt llm ex sc q k st], Outcome.exhausted (exhaustMsg N e)⟩
      else
        ⟨runAttempt llm ex sc q k st ::
            (loopGo llm ex sc q N (k + 1) r ⟨some sql, some e, some sql⟩).attempts,
          (loopGo llm ex sc q N (k + 1) r ⟨some sql, some e, some sql⟩).outcome⟩ := by
  rw [loopGo]
  split <;> rename_i h2 <;> rw [heq] at h2 <;> first
    | (cases h2; rfl)
    | exact AttemptOut.noConfusion h2

theorem loopGo_safety_structure {α : Type} (llm : Nat → String → Except String String)
    (ex : Nat → String → Except String α) (sc q : String) (N : Nat) :
    ∀ (r k : Nat) (st : LoopState) (m : String),
      (loopGo llm ex sc q N k r st).outcome = Outcome.safetyViolation m →
      ∃ pre last, (loopGo llm ex sc q N k r st).attempts = pre ++ [last] ∧
        last.out = AttemptOut.safety m ∧
        ∀ x ∈ pre, retryableOut x.out = true := by
  intro r
  induction r with
  | zero => intro k st m h; simp [loopGo] at h
  | succ r ih =>
    intro k st m h
    rcases heq : (runAttempt llm ex sc q k st).out with e | m2 | ⟨sql, e⟩ | ⟨sql, df⟩
    · rw [loopGo_succ_genFail heq] at h ⊢
      by_cases hr : r = 0
      · rw [if_pos hr] at h; simp at h
      · rw [if_neg hr] at h ⊢
        simp only at h
        obtain ⟨pre, last, hsplit, hlast, hpre⟩ := ih (k + 1) ⟨st.localSql, some e, st.localSql⟩ m h
        refine ⟨runAttempt llm ex sc q k st :: pre, last, by simp [hsplit], hlast, ?_⟩
        intro x hx
        rcases List.mem_cons.mp hx with rfl | hx
        · simp [retryableOut, heq]
        · exact hpre x hx
    · rw [loopGo_succ_safety heq] at h ⊢
      simp only [Outcome.safetyViolation.injEq] at h
      subst h
      exact ⟨[], runAttempt llm ex sc q k st, rfl, heq, by simp⟩
    · rw [loopGo_succ_execFail heq] at h ⊢
      by_cases hr : r = 0
      · rw [if_pos hr] at h; simp at h
      · rw [if_neg hr] at h ⊢
        simp only at h
        obtain ⟨pre, last, hsplit, hlast, hpre⟩ := ih (k + 1) ⟨some sql, some e, some sql⟩ m h
        refine ⟨runAttempt llm ex sc q k st :: pre, last, by simp [hsplit], hlast, ?_⟩
        intro x hx
        rcases List.mem_cons.mp hx with rfl | hx
        · simp [retryableOut, heq]
        · exact hpre x hx
    · rw [loopGo_succ_success heq] at h
      simp at h

/-- Claim C2 (amended): a safety violation is never retried — when a run of
`execute_with_retry` ends with `SafetyViolationError`, the violating attempt
is the last one (nothing follows it, whatever budget remains), so with the
violation on attempt `k` there are exactly `k` generator calls; every one of
the `k − 1` earlier attempts failed retryably, and the executor was called
exactly once per earlier attempt that reached execution: executor calls
`+` generation failures `+ 1 =` `k` (so executor calls are at most `k − 1`,
and exactly `k − 1` when no earlier generation call failed). -/
theorem C2_safety_fatal_short_circuit {α : Type}
    (llm : Nat → String → Except String String) (ex : Nat → String → Except String α)
    (schema_context user_query : String) (N : Nat) (m : String)
    (h : (execute_with_retry llm ex schema_context user_query N).outcome =
      Outcome.safetyViolation m) :
    ∃ pre last,
      (execute_with_retry llm ex schema_context user_query N).attempts = pre ++ [last] ∧
      last.out = AttemptOut.safety m ∧
      (execCallsOf (execute_with_retry llm ex schema_context user_query N).attempts).length
          + (genFailuresOf (execute_with_retry llm ex schema_context user_query N).attempts).length
          + 1
        = (execute_with_retry llm ex schema_context user_query N).attempts.length ∧
      (execute_with_retry llm ex schema_context user_query N).attempts.length ≤ N := by
  unfold execute_with_retry at h ⊢
  obtain ⟨pre, last, hsplit, hlast, hpre⟩ :=
    loopGo_safety_structure llm ex schema_context user_query N N 1 ⟨none, none, none⟩ m h
  refine ⟨pre, last, hsplit, hlast, ?_, ?_⟩
  · rw [hsplit, execCallsOf, genFailuresOf, List.filterMap_append, List.filterMap_append]
    have hexec : (List.filterMap (fun a => outSql a.out) [last]) = [] := by
      simp [List.filterMap_cons, hlast, outSql]
    have hgen : (List.filterMap (fun a => outGenErr a.out) [last]) = [] := by
      simp [List.filterMap_cons, hlast, outGenErr]
    rw [hexec, hgen]
    have := retryable_count pre hpre
    rw [execCallsOf, genFailuresOf] at this
    simp only [List.append_nil, List.length_append, List.length_cons, List.length_nil]
    omega
  · exact loopGo_length llm ex schema_context user_query N N 1 _

/-- Backend for the C2 witness run: always proposes a destructive query. -/
def llmW2 : Nat → String → Except String String := fun _ _ => .ok "DROP TABLE students"

/-- Executor for the C2 witness run (never reached). -/
def exW2 : Nat → String → Except String Nat := fun _ _ => .ok 0

/-- Witness for C2 (amended): concrete run where attempt 1 trips the safety
gate; the run stops there with one generator call and zero executor calls. -/
theorem C2_safety_fatal_short_circuit_witness :
    (execute_with_retry llmW2 exW2 "S" "Q" 3).outcome =
      Outcome.safetyViolation (safetyMessage "DROP") ∧
    ∃ pre last,
      (execute_with_retry llmW2 exW2 "S" "Q" 3).attempts = pre ++ [last] ∧
      last.out = AttemptOut.safety (safetyMessage "DROP") ∧
      (execCallsOf (execute_with_retry llmW2 exW2 "S" "Q" 3).attempts).length
          + (genFailuresOf (execute_with_retry llmW2 exW2 "S" "Q" 3).attempts).length + 1
        = (execute_with_retry llmW2 exW2 "S" "Q" 3).attempts.length ∧
      (execute_with_retry llmW2 exW2 "S" "Q" 3).attempts.length ≤ 3 := by
  have h : (execute_with_retry llmW2 exW2 "S" "Q" 3).outcome =
      Outcome.safetyViolation (safetyMessage "DROP") := by decide
  exact ⟨h, C2_safety_fatal_short_circuit llmW2 exW2 "S" "Q" 3 (safetyMessage "DROP") h⟩

/-- Backend refuting C2 as stated: the generation call itself fails on
attempt 1, then attempt 2 proposes a destructive query. -/
def llmX2 : Nat → String → Except String String :=
  fun k _ => if k == 1 then .error "backend unreachable" else .ok "DROP TABLE t"

/-- Executor for the C2 counterexample run (never reached). -/
def exX2 : Nat → String → Except String Nat := fun _ _ => .ok 0

/-- Counterexample to C2 as stated: in this run the safety violation happens
on attempt `k = 2` (two generator calls), yet the executor was called zero
times, not `k − 1 = 1` times — attempt 1 failed in generation, so it never
reached execution. -/
theorem C2_counterexample :
    (execute_with_retry llmX2 exX2 "S" "Q" 3).outcome =
      Outcome.safetyViolation (safetyMessage "DROP") ∧
    (execute_with_retry llmX2 exX2 "S" "Q" 3).attempts.length = 2 ∧
    (execCallsOf (execute_with_retry llmX2 exX2 "S" "Q" 3).attempts).length = 0 ∧
    (0 : Nat) ≠ 2 - 1 := by decide

theorem getLast?_cons_of_ne_nil {α : Type} (a : α) {l : List α} (h : l ≠ []) :
    (a :: l).getLast? = l.getLast? := by
  cases l with
  | nil => exact absurd rfl h
  | cons b bs => rw [List.getLast?_cons_cons]

theorem loopGo_exhausted {α : Type} (llm : Nat → String → Except String String)
    (ex : Nat → String → Except String α) (sc q : String) (N : Nat) :
    ∀ (r k : Nat) (st : LoopState) (m : String),
      (loopGo llm ex sc q N k r st).outcome = Outcome.exhausted m →
      (loopGo llm ex sc q N k r st).attempts.length = r ∧
      ∃ last e, (loopGo llm ex sc q N k r st).attempts.getLast? = some last ∧
        outErr last.out = some e ∧ m = exhaustMsg N e := by
  intro r
  induction r with
  | zero => intro k st m h; simp [loopGo] at h
  | succ r ih =>
    intro k st m h
    rcases heq : (runAttempt llm ex sc q k st).out with e | m2 | ⟨sql, e⟩ | ⟨sql, df⟩
    · rw [loopGo_succ_genFail heq] at h ⊢
      by_cases hr : r = 0
      · rw [if_pos hr] at h ⊢
        simp only [Outcome.exhausted.injEq] at h
        subst hr
        exact ⟨by simp, runAttempt llm ex sc q k st, e, by simp,
          by simp [outErr, heq], h.symm⟩
      · rw [if_neg hr] at h ⊢
        simp only at h
        obtain ⟨hlen, last, e2, hlast, herr, hm⟩ :=
          ih (k + 1) ⟨st.localSql, some e, st.localSql⟩ m h
        refine ⟨by simp [hlen], last, e2, ?_, herr, hm⟩
        have hne : (loopGo llm ex sc q N (k + 1) r ⟨st.localSql, some e, st.localSql⟩).attempts ≠ [] := by
          intro hnil
          rw [hnil] at hlen
          exact hr hlen.symm
        show (runAttempt llm ex sc q k st ::
          (loopGo llm ex sc q N (k + 1) r ⟨st.localSql, some e, st.localSql⟩).attempts).getLast? = some last
        rw [getLast?_cons_of_ne_nil _ hne]
        exact hlast
    · rw [loopGo_succ_safety heq] at h
      simp at h
    · rw [loopGo_succ_execFail heq] at h ⊢
      by_cases hr : r = 0
      · rw [if_pos hr] at h ⊢
        simp only [Outcome.exhausted.injEq] at h
        subst hr
        exact ⟨by simp, runAttempt llm ex sc q k st, e, by simp,
          by simp [outErr, heq], h.symm⟩
      · rw [if_neg hr] at h ⊢
        simp only at h
        obtain ⟨hlen, last, e2, hlast, herr, hm⟩ :=
          ih (k + 1) ⟨some sql, some e, some sql⟩ m h
        refine ⟨by simp [hlen], last, e2, ?_, herr, hm⟩
        have hne : (loopGo llm ex sc q N (k + 1) r ⟨some sql, some e, some sql⟩).attempts ≠ [] := by
          intro hnil
          rw [hnil] at hlen
          exact hr hlen.symm
        show (runAttempt llm ex sc q k st ::
          (loopGo llm ex sc q N (k + 1) r ⟨some sql, some e, some sql⟩).attempts).getLast? = some last
        rw [getLast?_cons_of_ne_nil _ hne]
        exact hlast
    · rw [loopGo_succ_success heq] at h
      simp at h

/-- Claim C5 (amended): when a run of `execute_with_retry` ends with the
exhaustion exception, exactly `max_retries` attempts were made, the last
attempt failed retryably with some error `e`, and the message surfaced to the
caller is `"Failed after {max_retries} attempts. Last error: {e}"` — it
carries the attempt count and the last error message.  (The last query tried
is not part of it; see the counterexample.) -/
theorem C5_exhausted_surfaces_count_and_error {α : Type}
    (llm : Nat → String → Except String String) (ex : Nat → String → Except String α)
    (schema_context user_query : String) (N : Nat) (m : String)
    (h : (execute_with_retry llm ex schema_context user_query N).outcome =
      Outcome.exhausted m) :
    (execute_with_retry llm ex schema_context user_query N).attempts.length = N ∧
    ∃ last e,
      (execute_with_retry llm ex schema_context user_query N).attempts.getLast? = some last ∧
      outErr last.out = some e ∧ m = exhaustMsg N e := by
  unfold execute_with_retry at h ⊢
  exact loopGo_exhausted llm ex schema_context user_query N N 1 ⟨none, none, none⟩ m h

/-- Backend for the C5 witness run: a fixed query every time. -/
def llmW5 : Nat → String → Except String String := fun _ _ => .ok "SELECT a FROM t"

/-- Executor for the C5 witness run: every execution fails, with the attempt
number in the error text. -/
def exW5 : Nat → String → Except String Nat := fun k _ => .error ("E" ++ toString k)

/-- Witness for C5 (amended): a run whose two attempts both fail at execution
ends exhausted; the theorem yields the attempt count 2 and the last error
inside the surfaced message. -/
theorem C5_exhausted_surfaces_count_and_error_witness :
    (execute_with_retry llmW5 exW5 "S" "Q" 2).outcome =
      Outcome.exhausted (exhaustMsg 2 "E2") ∧
    ((execute_with_retry llmW5 exW5 "S" "Q" 2).attempts.length = 2 ∧
      ∃ last e, (execute_with_retry llmW5 exW5 "S" "Q" 2).attempts.getLast? = some last ∧
        outErr last.out = some e ∧ exhaustMsg 2 "E2" = exhaustMsg 2 e) := by
  have h : (execute_with_retry llmW5 exW5 "S" "Q" 2).outcome =
      Outcome.exhausted (exhaustMsg 2 "E2") := by decide
  exact ⟨h, C5_exhausted_surfaces_count_and_error llmW5 exW5 "S" "Q" 2 (exhaustMsg 2 "E2") h⟩

/-- Backend for the C5 counterexample run. -/
def llmX5 : Nat → String → Except String String := fun _ _ => .ok "SELECT ZZZ FROM W"

/-- Executor for the C5 counterexample run: always the same opaque error. -/
def exX5 : Nat → String → Except String Nat := fun _ _ => .error "no such column"

/-- Counterexample to C5 as stated: the terminal exhaustion failure does not
include the last query tried — here both executed queries were
`"SELECT ZZZ FROM W"`, yet that text does not occur in the surfaced message,
which only carries the attempt count and the last error. -/
theorem C5_counterexample :
    (execute_with_retry llmX5 exX5 "S" "Q" 2).outcome =
      Outcome.exhausted (exhaustMsg 2 "no such column") ∧
    execCallsOf (execute_with_retry llmX5 exX5 "S" "Q" 2).attempts =
      ["SELECT ZZZ FROM W", "SELECT ZZZ FROM W"] ∧
    strContains "SELECT ZZZ FROM W" (exhaustMsg 2 "no such column") = false := by decide

theorem runAttempt_prompt {α : Type} (llm : Nat → String → Except String String)
    (ex : Nat → String → Except String α) (sc q : String) (k : Nat) (st : LoopState) :
    (runAttempt llm ex sc q k st).prompt =
      generate_prompt sc q st.previous_sql st.error_message := by
  unfold runAttempt
  dsimp only
  split
  · rfl
  · split
    · rfl
    · split <;> rfl

theorem loopGo_head {α : Type} (llm : Nat → String → Except String String)
    (ex : Nat → String → Except String α) (sc q : String) (N k r : Nat) (st : LoopState)
    (hr : 0 < r) :
    (loopGo llm ex sc q N k r st).attempts[0]? = some (runAttempt llm ex sc q k st) := by
  rcases r with - | r
  · exact absurd hr (by simp)
  · rcases heq : (runAttempt llm ex sc q k st).out with e | m | ⟨sql, e⟩ | ⟨sql, df⟩
    · rw [loopGo_succ_genFail heq]
      by_cases hr0 : r = 0 <;> simp [hr0]
    · rw [loopGo_succ_safety heq]; rfl
    · rw [loopGo_succ_execFail heq]
      by_cases hr0 : r = 0 <;> simp [hr0]
    · rw [loopGo_succ_success heq]; rfl

theorem loopGo_consecutive_execFail {α : Type} (llm : Nat → String → Except String String)
    (ex : Nat → String → Except String α) (sc q : String) (N : Nat) :
    ∀ (r k : Nat) (st : LoopState) (i : Nat) (a b : AttemptRec α) (sql e : String),
      (loopGo llm ex sc q N k r st).attempts[i]? = some a →
      (loopGo llm ex sc q N k r st).attempts[i + 1]? = some b →
      a.out = AttemptOut.execFail sql e →
      b.prompt = generate_prompt sc q (some sql) (some e) := by
  intro r
  induction r with
  | zero => intro k st i a b sql e ha hb hout; simp [loopGo] at ha
  | succ r ih =>
    intro k st i a b sql e ha hb hout
    rcases heq : (runAttempt llm ex sc q k st).out with e2 | m2 | ⟨sql2, e2⟩ | ⟨sql2, df2⟩
    · rw [loopGo_succ_genFail heq] at ha hb
      by_cases hr : r = 0
      · rw [if_pos hr] at hb
        simp at hb
      · rw [if_neg hr] at ha hb
        cases i with
        | zero =>
          have ha0 : runAttempt llm ex sc q k st = a := by simpa using ha
          rw [← ha0, heq] at hout
          exact AttemptOut.noConfusion hout
        | succ j =>
          simp only [List.getElem?_cons_succ] at ha hb
          exact ih (k + 1) _ j a b sql e ha hb hout
    · rw [loopGo_succ_safety heq] at hb
      simp at hb
    · rw [loopGo_succ_execFail heq] at ha hb
      by_cases hr : r = 0
      · rw [if_pos hr] at hb
        simp at hb
      · rw [if_neg hr] at ha hb
        cases i with
        | zero =>
          have ha0 : runAttempt llm ex sc q k st = a := by simpa using ha
          rw [← ha0, heq] at hout
          obtain ⟨rfl, rfl⟩ : sql2 = sql ∧ e2 = e := by
            injection hout with h1 h2
            exact ⟨h1, h2⟩
          simp only [List.getElem?_cons_succ] at hb
          have hh := loopGo_head llm ex sc q N (k + 1) r ⟨some sql2, some e2, some sql2⟩
            (Nat.pos_of_ne_zero hr)
          rw [hh] at hb
          have hb0 : runAttempt llm ex sc q (k + 1) ⟨some sql2, some e2, some sql2⟩ = b := by
            injection hb
          rw [← hb0, runAttempt_prompt]
        | succ j =>
          simp only [List.getElem?_cons_succ] at ha hb
          exact ih (k + 1) _ j a b sql e ha hb hout
    · rw [loopGo_succ_success heq] at hb
      simp at hb

/-- Claim C4 (amended): for every attempt `k > 1` whose immediately preceding
attempt generated a nonempty query `sql` and failed at execution with a
nonempty error `e`, the prompt of attempt `k` is the healing prompt built
from exactly that query and that error — it contains both literally, and is
a function of nothing else from the history.  (As stated, the claim fails
when the preceding attempt failed in generation: see the counterexample.) -/
theorem C4_healing_embeds_previous_attempt {α : Type}
    (llm : Nat → String → Except String String) (ex : Nat → String → Except String α)
    (schema_context user_query : String) (N i : Nat) (a b : AttemptRec α) (sql e : String)
    (ha : (execute_with_retry llm ex schema_context user_query N).attempts[i]? = some a)
    (hb : (execute_with_retry llm ex schema_context user_query N).attempts[i + 1]? = some b)
    (hout : a.out = AttemptOut.execFail sql e)
    (hsql : sql ≠ "") (he : e ≠ "") :
    b.prompt = _build_healing_prompt schema_context user_query sql e ∧
    strContains sql b.prompt = true ∧ strContains e b.prompt = true := by
  unfold execute_with_retry at ha hb
  have hp := loopGo_consecutive_execFail llm ex schema_context user_query N N 1
    ⟨none, none, none⟩ i a b sql e ha hb hout
  have h1 : sql.isEmpty = false := by
    rcases hb1 : sql.isEmpty with - | -
    · rfl
    · exact absurd ((String.isEmpty_iff sql).mp hb1) hsql
  have h2 : e.isEmpty = false := by
    rcases hb2 : e.isEmpty with - | -
    · rfl
    · exact absurd ((String.isEmpty_iff e).mp hb2) he
  have hple : b.prompt = _build_healing_prompt schema_context user_query sql e := by
    rw [hp]
    simp [generate_prompt, pyTruthy, h1, h2]
  have hx : _build_healing_prompt schema_context user_query sql e =
      ("The previous SQL query failed. Please fix it based on the error message.\n\nDATABASE SCHEMA:\n"
          ++ schema_context ++ "\n\nORIGINAL USER QUESTION:\n" ++ user_query
          ++ "\n\nPREVIOUS SQL QUERY (FAILED):\n")
        ++ sql ++
        ("\n\nERROR MESSAGE:\n" ++ e
          ++ "\n\nPlease generate a corrected SQL query that fixes this error. Return ONLY the corrected SQL query.\n\nCorrected SQL Query:") := by
    rw [_build_healing_prompt]
    simp [String.append_assoc]
  have hy : _build_healing_prompt schema_context user_query sql e =
      ("The previous SQL query failed. Please fix it based on the error message.\n\nDATABASE SCHEMA:\n"
          ++ schema_context ++ "\n\nORIGINAL USER QUESTION:\n" ++ user_query
          ++ "\n\nPREVIOUS SQL QUERY (FAILED):\n" ++ sql ++ "\n\nERROR MESSAGE:\n")
        ++ e ++
        "\n\nPlease generate a corrected SQL query that fixes this error. Return ONLY the corrected SQL query.\n\nCorrected SQL Query:" := by
    rw [_build_healing_prompt]
  refine ⟨hple, ?_, ?_⟩
  · rw [hple, hx]; exact strContains_of_append
  · rw [hple, hy]; exact strContains_of_append

/-- Backend for the C4 witness run: a fixed query on attempt 1, another on
later attempts. -/
def llmW4 : Nat → String → Except String String :=
  fun k _ => if k == 1 then .ok "SELECT A" else .ok "SELECT B"

/-- Executor for the C4 witness run: attempt 1 fails with `E1`, later
attempts succeed. -/
def exW4 : Nat → String → Except String Nat :=
  fun k _ => if k == 1 then .error "E1" else .ok 0

/-- Witness for C4 (amended): in the concrete run, attempt 1 fails at
execution with query `SELECT A` and error `E1`, and attempt 2's prompt is the
healing prompt embedding exactly those two strings. -/
theorem C4_healing_embeds_previous_attempt_witness :
    ∃ b, (execute_with_retry llmW4 exW4 "S" "Q" 2).attempts[1]? = some b ∧
      b.prompt = _build_healing_prompt "S" "Q" "SELECT A" "E1" ∧
      strContains "SELECT A" b.prompt = true ∧ strContains "E1" b.prompt = true := by
  have ha : (execute_with_retry llmW4 exW4 "S" "Q" 2).attempts[0]? =
      some ⟨_build_initial_prompt "S" "Q", AttemptOut.execFail "SELECT A" "E1"⟩ := by decide
  have hb : (execute_with_retry llmW4 exW4 "S" "Q" 2).attempts[1]? =
      some ⟨_build_healing_prompt "S" "Q" "SELECT A" "E1",
        AttemptOut.success "SELECT B" 0⟩ := by decide
  exact ⟨_, hb,
    C4_healing_embeds_previous_attempt llmW4 exW4 "S" "Q" 2 0 _ _ "SELECT A" "E1"
      ha hb rfl (by decide) (by decide)⟩

/-- Backend for the C4 counterexample run: attempt 1 produces a query,
attempt 2's generation call fails, attempt 3 produces another query. -/
def llmX4 : Nat → String → Except String String :=
  fun k _ =>
    if k == 1 then .ok "SELECT A FROM T"
    else if k == 2 then .error "GENFAIL2"
    else .ok "SELECT C FROM T"

/-- Executor for the C4 counterexample run: attempt 1 fails, attempt 3
succeeds. -/
def exX4 : Nat → String → Except String Nat :=
  fun k _ => if k == 1 then .error "E1" else .ok 0

/-- Counterexample to C4 as stated: attempt 2 fails in generation, so
attempt 3's prompt reuses attempt 1's stale query text `SELECT A FROM T`
(`previous_sql = sql if 'sql' in locals() else None` resurrects the old
binding) together with attempt 2's error — the prompt of attempt `k = 3`
contains an earlier (k−2) attempt's query, not the query of attempt `k−1`,
which generated none. -/
theorem C4_counterexample :
    ((execute_with_retry llmX4 exX4 "S" "Q" 3).attempts[1]?).map (fun x => outErr x.out) =
      some (some "GENFAIL2") ∧
    ((execute_with_retry llmX4 exX4 "S" "Q" 3).attempts[2]?).map AttemptRec.prompt =
      some (_build_healing_prompt "S" "Q" "SELECT A FROM T" "GENFAIL2") ∧
    strContains "SELECT A FROM T"
      (_build_healing_prompt "S" "Q" "SELECT A FROM T" "GENFAIL2") = true := by decide

/-- Claim C6 (amended): on success `execute_with_retry` returns the pair
`(ExecutionResult, finalQueryText)` — modelled by `Outcome.success df sql`,
which carries exactly those two components and no attempt count — and when
the generation backend and executor both succeed on the first call the run
consists of exactly one attempt, prompted with the initial prompt. -/
theorem C6_first_try_success_pair {α : Type}
    (llm : Nat → String → Except String String) (ex : Nat → String → Except String α)
    (schema_context user_query raw : String) (df : α) (N : Nat)
    (hN : 1 ≤ N)
    (hllm : llm 1 (_build_initial_prompt schema_context user_query) = .ok raw)
    (hval : validate_sql_safety (_extract_sql raw) = .ok true)
    (hex : ex 1 (_extract_sql raw) = .ok df) :
    execute_with_retry llm ex schema_context user_query N =
      ⟨[⟨_build_initial_prompt schema_context user_query,
          AttemptOut.success (_extract_sql raw) df⟩],
        Outcome.success df (_extract_sql raw)⟩ := by
  have hrun : runAttempt llm ex schema_context user_query 1 ⟨none, none, none⟩ =
      ⟨_build_initial_prompt schema_context user_query,
        AttemptOut.success (_extract_sql raw) df⟩ := by
    unfold runAttempt
    dsimp only
    have hgp : generate_prompt schema_context user_query none none =
        _build_initial_prompt schema_context user_query := rfl
    rw [hgp, hllm]
    dsimp only
    rw [hval]
    dsimp only
    rw [hex]
  unfold execute_with_retry
  rcases N with - | N2
  · exact absurd hN (by simp)
  · rw [loopGo_succ_success (by rw [hrun])]
    rw [hrun]

/-- Backend for the C6 witness run. -/
def llmW6 : Nat → String → Except String String := fun _ _ => .ok "SELECT 6"

/-- Executor for the C6 witness run. -/
def exW6 : Nat → String → Except String Nat := fun _ _ => .ok 5

/-- Witness for C6 (amended): the concrete first-try-success run returns the
success pair after exactly one attempt. -/
theorem C6_first_try_success_pair_witness :
    execute_with_retry llmW6 exW6 "S" "Q" 3 =
      ⟨[⟨_build_initial_prompt "S" "Q", AttemptOut.success (_extract_sql "SELECT 6") 5⟩],
        Outcome.success 5 (_extract_sql "SELECT 6")⟩ := by
  have hval : validate_sql_safety (_extract_sql "SELECT 6") = .ok true := by
    have hf : firstViolation (_extract_sql "SELECT 6") = none := by decide
    rw [validate_sql_safety, hf]
  exact C6_first_try_success_pair llmW6 exW6 "S" "Q" "SELECT 6" 5 3 (by simp) rfl hval rfl

/-- Backend shared by the two C6 counterexample runs. -/
def llmX6 : Nat → String → Except String String := fun _ _ => .ok "SELECT 1"

/-- Executor of the first C6 counterexample run: succeeds at once. -/
def exX6a : Nat → String → Except String Nat := fun _ _ => .ok 0

/-- Executor of the second C6 counterexample run: attempt 1 fails, attempt 2
succeeds with the same result. -/
def exX6b : Nat → String → Except String Nat :=
  fun k _ => if k == 1 then .error "E1" else .ok 0

/-- Counterexample to C6 as stated: two runs that differ in attempt count
(1 versus 2) return the identical value to the caller — the source returns
`df, sql`, a pair — so the returned value cannot be the claimed triple
carrying `attemptCount`. -/
theorem C6_counterexample :
    (execute_with_retry llmX6 exX6a "S" "Q" 3).outcome =
      (execute_with_retry llmX6 exX6b "S" "Q" 3).outcome ∧
    (execute_with_retry llmX6 exX6a "S" "Q" 3).attempts.length = 1 ∧
    (execute_with_retry llmX6 exX6b "S" "Q" 3).attempts.length = 2 := by decide

/-- Claim C7 (amended): a generation failure on attempt 1 is retryable — with
budget at least 2 a second attempt happens — but the generation error is not
embedded in attempt 2's request: no query text exists yet, so the healing
condition (`if previous_sql and error_message`) is falsy and attempt 2 is
sent the plain initial prompt. -/
theorem C7_genfail_retried_with_initial_prompt {α : Type}
    (llm : Nat → String → Except String String) (ex : Nat → String → Except String α)
    (schema_context user_query : String) (N : Nat) (a : AttemptRec α) (e : String)
    (hN : 2 ≤ N)
    (ha : (execute_with_retry llm ex schema_context user_query N).attempts[0]? = some a)
    (hout : a.out = AttemptOut.genFail e) :
    ∃ b, (execute_with_retry llm ex schema_context user_query N).attempts[1]? = some b ∧
      b.prompt = _build_initial_prompt schema_context user_query := by
  unfold execute_with_retry at ha ⊢
  rcases N with - | N2
  · exact absurd hN (by simp)
  · have hh := loopGo_head llm ex schema_context user_query (N2 + 1) 1 (N2 + 1)
      ⟨none, none, none⟩ (by simp)
    rw [hh] at ha
    have ha0 : runAttempt llm ex schema_context user_query 1 ⟨none, none, none⟩ = a := by
      injection ha
    rw [← ha0] at hout
    rw [loopGo_succ_genFail hout]
    have hr : N2 ≠ 0 := by omega
    rw [if_neg hr]
    refine ⟨runAttempt llm ex schema_context user_query 2 ⟨none, some e, none⟩, ?_, ?_⟩
    · show (runAttempt llm ex schema_context user_query 1 ⟨none, none, none⟩ ::
        (loopGo llm ex schema_context user_query (N2 + 1) 2 N2 ⟨none, some e, none⟩).attempts)[1]?
          = _
      rw [List.getElem?_cons_succ]
      exact loopGo_head llm ex schema_context user_query (N2 + 1) 2 N2 ⟨none, some e, none⟩
        (Nat.pos_of_ne_zero hr)
    · rw [runAttempt_prompt]
      rfl

/-- Backend for the C7 witness run: unreachable on attempt 1, then fine. -/
def llmW7 : Nat → String → Except String String :=
  fun k _ => if k == 1 then .error "backend timeout" else .ok "SELECT 7"

/-- Executor for the C7 witness run. -/
def exW7 : Nat → String → Except String Nat := fun _ _ => .ok 0

/-- Witness for C7 (amended): in the concrete run whose first generation call
fails, attempt 2 exists and its prompt is the plain initial prompt. -/
theorem C7_genfail_retried_with_initial_prompt_witness :
    ∃ b, (execute_with_retry llmW7 exW7 "S" "Q" 2).attempts[1]? = some b ∧
      b.prompt = _build_initial_prompt "S" "Q" := by
  have ha : (execute_with_retry llmW7 exW7 "S" "Q" 2).attempts[0]? =
      some ⟨_build_initial_prompt "S" "Q", AttemptOut.genFail "backend timeout"⟩ := by decide
  exact C7_genfail_retried_with_initial_prompt llmW7 exW7 "S" "Q" 2 _ "backend timeout"
    (by simp) ha rfl

/-- Backend for the C7 counterexample run. -/
def llmX7 : Nat → String → Except String String :=
  fun k _ => if k == 1 then .error "CONNFAIL77" else .ok "SELECT 1"

/-- Executor for the C7 counterexample run. -/
def exX7 : Nat → String → Except String Nat := fun _ _ => .ok 0

/-- Counterexample to C7 as stated: after the attempt-1 generation failure
`CONNFAIL77`, attempt 2's request is exactly the plain initial prompt, and
the generation failure note appears nowhere in it. -/
theorem C7_counterexample :
    ((execute_with_retry llmX7 exX7 "S" "Q" 2).attempts[1]?).map AttemptRec.prompt =
      some (_build_initial_prompt "S" "Q") ∧
    strContains "CONNFAIL77" (_build_initial_prompt "S" "Q") = false := by decide

/-! ### Lemmas about stripping, for the extraction pipeline (claim C9) -/

theorem pyRStrip_prefixOf (l : List Char) : pyRStrip l <+: l := by
  have h : l.reverse.dropWhile pyWsChar <:+ l.reverse := List.dropWhile_suffix pyWsChar
  have h2 := List.reverse_prefix.mpr h
  simpa [pyRStrip, pyLStrip] using h2

theorem pyRStrip_decomp (l : List Char) :
    ∃ wsuf, l = pyRStrip l ++ wsuf ∧ ∀ c ∈ wsuf, pyWsChar c = true := by
  refine ⟨(l.reverse.takeWhile pyWsChar).reverse, ?_, ?_⟩
  · calc l = l.reverse.reverse := (List.reverse_reverse l).symm
      _ = (l.reverse.takeWhile pyWsChar ++ l.reverse.dropWhile pyWsChar).reverse := by
          rw [List.takeWhile_append_dropWhile]
      _ = (l.reverse.dropWhile pyWsChar).reverse ++ (l.reverse.takeWhile pyWsChar).reverse :=
          List.reverse_append ..
      _ = pyRStrip l ++ (l.reverse.takeWhile pyWsChar).reverse := rfl
  · intro c hc
    rw [List.mem_reverse] at hc
    exact List.mem_takeWhile_imp hc

theorem pyLStrip_of_head_not_ws {l : List Char}
    (h : ∀ c, l.head? = some c → pyWsChar c = false) : pyLStrip l = l := by
  cases l with
  | nil => rfl
  | cons c cs =>
    have := h c rfl
    simp [pyLStrip, List.dropWhile_cons, this]

theorem head_not_ws_of_pyLStrip {l : List Char} (h : pyLStrip l = l) :
    ∀ c, l.head? = some c → pyWsChar c = false := by
  intro c hc
  cases l with
  | nil => exact Option.noConfusion hc
  | cons d ds =>
    have hdc : d = c := by injection hc
    subst hdc
    rcases hw : pyWsChar d with - | -
    · rfl
    · exfalso
      rw [pyLStrip, List.dropWhile_cons, hw] at h
      have hlen := congrArg List.length h
      have hle : (ds.dropWhile pyWsChar).length ≤ ds.length := (List.dropWhile_suffix pyWsChar).length_le
      simp at hlen
      omega

theorem pyLStrip_take {l : List Char} (h : pyLStrip l = l) (n : Nat) :
    pyLStrip (l.take n) = l.take n := by
  apply pyLStrip_of_head_not_ws
  intro c hc
  apply head_not_ws_of_pyLStrip h
  cases l with
  | nil => simp at hc
  | cons d ds =>
    cases n with
    | zero => simp at hc
    | succ m =>
      simp only [List.take_succ_cons, List.head?_cons, Option.some.injEq] at hc ⊢
      exact hc

theorem pyLStrip_of_prefixOf {l t : List Char} (h : pyLStrip l = l) (hp : t <+: l) :
    pyLStrip t = t := by
  obtain ⟨u, rfl⟩ := hp
  have := pyLStrip_take h t.length
  simpa [List.take_left] using this

theorem pyLStrip_pyStrip (l : List Char) : pyLStrip (pyStrip l) = pyStrip l := by
  rw [pyStrip]
  exact pyLStrip_of_prefixOf (List.dropWhile_idempotent pyWsChar l) (pyRStrip_prefixOf _)

theorem pyStrip_eq_pyRStrip {l : List Char} (h : pyLStrip l = l) :
    pyStrip l = pyRStrip l := by
  rw [pyStrip, h]

/-! ### Occurrence lemmas for the separator scan -/

theorem prefix_take_eq {t r : List Char} (h : r <+: t) : t.take r.length = r := by
  obtain ⟨u, rfl⟩ := h
  exact List.take_left ..

theorem occAtB_iff_exists {pat s : List Char} {q : Nat} :
    occAtB pat s q = true ↔ ∃ rest, s.drop q = pat ++ rest := by
  rw [occAtB, takePrefixEq_isSome_iff]

theorem occAtB_zero {pat s : List Char} : occAtB pat s 0 = (takePrefixEq pat s).isSome := rfl

theorem occAtB_succ_cons {pat : List Char} {c : Char} {cs : List Char} {j : Nat} :
    occAtB pat (c :: cs) (j + 1) = occAtB pat cs j := rfl

theorem occAtB_nil {pat : List Char} {q : Nat} :
    occAtB pat [] q = (takePrefixEq pat ([] : List Char)).isSome := by
  cases q <;> rfl

theorem occAtB_getElem? {pat s : List Char} {q : Nat} (h : occAtB pat s q = true)
    (i : Nat) (hi : i < pat.length) : s[q + i]? = pat[i]? := by
  obtain ⟨rest, hr⟩ := occAtB_iff_exists.mp h
  have h1 : (s.drop q)[i]? = s[q + i]? := List.getElem?_drop ..
  rw [← h1, hr]
  exact List.getElem?_append_left hi

theorem occAtB_lt_length {pat s : List Char} {q : Nat} (hp : pat ≠ [])
    (h : occAtB pat s q = true) : q < s.length := by
  obtain ⟨rest, hr⟩ := occAtB_iff_exists.mp h
  by_contra hq
  push_neg at hq
  rw [List.drop_eq_nil_iff.mpr hq] at hr
  exact hp (List.append_eq_nil.mp hr.symm).1

theorem occAtB_add_length_le {pat s : List Char} {q : Nat} (hp : pat ≠ [])
    (h : occAtB pat s q = true) : q + pat.length ≤ s.length := by
  obtain ⟨rest, hr⟩ := occAtB_iff_exists.mp h
  have hlen := congrArg List.length hr
  rw [List.length_drop, List.length_append] at hlen
  have hlt := occAtB_lt_length hp h
  omega

theorem occAtB_of_prefixOf {pat t s : List Char} {q : Nat} (hp : pat ≠ [])
    (hpre : t <+: s) (h : occAtB pat t q = true) : occAtB pat s q = true := by
  obtain ⟨u, rfl⟩ := hpre
  obtain ⟨rest, hr⟩ := occAtB_iff_exists.mp h
  have hle : q ≤ t.length := le_of_lt (occAtB_lt_length hp h)
  rw [occAtB_iff_exists]
  refine ⟨rest ++ u, ?_⟩
  rw [List.drop_append_of_le_length hle, hr, List.append_assoc]

theorem occAtB_take {pat s : List Char} {q n : Nat}
    (h : occAtB pat s q = true) (hle : q + pat.length ≤ n) :
    occAtB pat (s.take n) q = true := by
  obtain ⟨rest, hr⟩ := occAtB_iff_exists.mp h
  rw [occAtB_iff_exists]
  refine ⟨rest.take (n - q - pat.length), ?_⟩
  rw [List.drop_take, hr, List.take_append_eq_append_take,
    List.take_of_length_le (by omega), Nat.sub_sub]

theorem occAtB_pyRStrip {pat t : List Char} {q : Nat}
    (hp : pat ≠ [])
    (hlast : ∃ c, pat.getLast? = some c ∧ pyWsChar c = false)
    (h : occAtB pat t q = true) : occAtB pat (pyRStrip t) q = true := by
  obtain ⟨wsuf, hdec, hws⟩ := pyRStrip_decomp t
  obtain ⟨c, hc, hcw⟩ := hlast
  have hplpos : 0 < pat.length := List.length_pos.mpr hp
  have hlen : q + pat.length ≤ (pyRStrip t).length := by
    by_contra hlt
    push_neg at hlt
    have hidx : t[q + (pat.length - 1)]? = pat[pat.length - 1]? :=
      occAtB_getElem? h (pat.length - 1) (by omega)
    have hpatlast : pat[pat.length - 1]? = some c := by
      rw [← List.getLast?_eq_getElem?]
      exact hc
    rw [hdec] at hidx
    have hge : (pyRStrip t).length ≤ q + (pat.length - 1) := by omega
    rw [List.getElem?_append_right hge, hpatlast] at hidx
    have := hws c (List.getElem?_mem hidx)
    rw [this] at hcw
    exact Bool.noConfusion hcw
  have htake : t.take (pyRStrip t).length = pyRStrip t := prefix_take_eq (pyRStrip_prefixOf t)
  rw [← htake]
  exact occAtB_take h hlen

theorem firstOccIdx_spec {pat : List Char} : ∀ {s : List Char} {q : Nat},
    firstOccIdx pat s = some q ↔
      (occAtB pat s q = true ∧ ∀ j, j < q → occAtB pat s j = false) := by
  intro s
  induction s with
  | nil =>
    intro q
    rw [firstOccIdx]
    by_cases hts : (takePrefixEq pat ([] : List Char)).isSome = true
    · rw [if_pos hts]
      constructor
      · intro h
        have hq : 0 = q := by injection h
        subst hq
        exact ⟨by rw [occAtB_nil]; exact hts, by omega⟩
      · rintro ⟨h1, h2⟩
        cases q with
        | zero => rfl
        | succ q2 =>
          have := h2 0 (by omega)
          rw [occAtB_nil, hts] at this
          exact Bool.noConfusion this
    · rw [if_neg hts]
      constructor
      · intro h; exact Option.noConfusion h
      · rintro ⟨h1, -⟩
        rw [occAtB_nil] at h1
        exact absurd h1 hts
  | cons c cs ih =>
    intro q
    rw [firstOccIdx]
    by_cases hts : (takePrefixEq pat (c :: cs)).isSome = true
    · rw [if_pos hts]
      constructor
      · intro h
        have hq : 0 = q := by injection h
        subst hq
        exact ⟨by rw [occAtB_zero]; exact hts, by omega⟩
      · rintro ⟨h1, h2⟩
        cases q with
        | zero => rfl
        | succ q2 =>
          have := h2 0 (by omega)
          rw [occAtB_zero, hts] at this
          exact Bool.noConfusion this
    · rw [if_neg hts]
      constructor
      · intro h
        obtain ⟨q2, hq2, rfl⟩ := Option.map_eq_some'.mp h
        have hih := ih.mp hq2
        refine ⟨by rw [occAtB_succ_cons]; exact hih.1, ?_⟩
        intro j hj
        cases j with
        | zero =>
          rw [occAtB_zero]
          simpa using hts
        | succ i =>
          rw [occAtB_succ_cons]
          exact hih.2 i (by omega)
      · rintro ⟨h1, h2⟩
        cases q with
        | zero =>
          rw [occAtB_zero] at h1
          exact absurd h1 hts
        | succ q2 =>
          rw [occAtB_succ_cons] at h1
          have hcs : firstOccIdx pat cs = some q2 := by
            refine ih.mpr ⟨h1, ?_⟩
            intro i hi
            have := h2 (i + 1) (by omega)
            rwa [occAtB_succ_cons] at this
          rw [hcs]
          rfl

theorem firstOccIdx_none_iff {pat : List Char} : ∀ {s : List Char},
    firstOccIdx pat s = none ↔ ∀ j, occAtB pat s j = false := by
  intro s
  induction s with
  | nil =>
    rw [firstOccIdx]
    by_cases hts : (takePrefixEq pat ([] : List Char)).isSome = true
    · rw [if_pos hts]
      constructor
      · intro h; exact Option.noConfusion h
      · intro h
        have := h 0
        rw [occAtB_nil, hts] at this
        exact Bool.noConfusion this
    · rw [if_neg hts]
      constructor
      · rintro - j
        rw [occAtB_nil]
        simpa using hts
      · rintro -
        rfl
  | cons c cs ih =>
    rw [firstOccIdx]
    by_cases hts : (takePrefixEq pat (c :: cs)).isSome = true
    · rw [if_pos hts]
      constructor
      · intro h; exact Option.noConfusion h
      · intro h
        have := h 0
        rw [occAtB_zero, hts] at this
        exact Bool.noConfusion this
    · rw [if_neg hts]
      rw [Option.map_eq_none']
      rw [ih]
      constructor
      · intro h j
        cases j with
        | zero =>
          rw [occAtB_zero]
          simpa using hts
        | succ i => rw [occAtB_succ_cons]; exact h i
      · intro h i
        have := h (i + 1)
        rwa [occAtB_succ_cons] at this

theorem firstOcc_le_of_occ {pat s : List Char} {j : Nat} (h : occAtB pat s j = true) :
    ∃ v, firstOccIdx pat s = some v ∧ v ≤ j := by
  rcases hf : firstOccIdx pat s with - | v
  · rw [firstOccIdx_none_iff] at hf
    rw [hf j] at h
    exact Bool.noConfusion h
  · refine ⟨v, rfl, ?_⟩
    by_contra hlt
    push_neg at hlt
    have := (firstOccIdx_spec.mp hf).2 j hlt
    rw [this] at h
    exact Bool.noConfusion h

theorem substrB_iff_exists_occ {pat s : List Char} :
    substrB pat s = true ↔ ∃ q, occAtB pat s q = true := by
  rw [substrB_eq_true_iff]
  constructor
  · rintro ⟨pre, post, rfl⟩
    refine ⟨pre.length, ?_⟩
    rw [occAtB_iff_exists, List.append_assoc, List.drop_left]
    exact ⟨post, rfl⟩
  · rintro ⟨q, hq⟩
    obtain ⟨rest, hr⟩ := occAtB_iff_exists.mp hq
    exact ⟨s.take q, rest, by rw [List.append_assoc, ← hr, List.take_append_drop]⟩

theorem takeBeforeFirst_eq_take {pat : List Char} : ∀ {s : List Char} {q : Nat},
    firstOccIdx pat s = some q → takeBeforeFirst pat s = s.take q := by
  intro s
  induction s with
  | nil =>
    intro q h
    rw [firstOccIdx] at h
    by_cases hts : (takePrefixEq pat ([] : List Char)).isSome = true
    · rw [if_pos hts] at h
      have hq : 0 = q := by injection h
      subst hq
      rfl
    · rw [if_neg hts] at h
      exact Option.noConfusion h
  | cons c cs ih =>
    intro q h
    rw [firstOccIdx] at h
    rw [takeBeforeFirst]
    by_cases hts : (takePrefixEq pat (c :: cs)).isSome = true
    · rw [if_pos hts] at h ⊢
      have hq : 0 = q := by injection h
      subst hq
      rfl
    · rw [if_neg hts] at h ⊢
      obtain ⟨q2, hq2, rfl⟩ := Option.map_eq_some'.mp h
      rw [ih hq2]
      rfl

/-- Shape shared by the three explanation separators: they begin with the
blank line `"\n\n"`, are at least three characters long, contain no newline
past index 1, and end with a non-whitespace character. -/
def MarkerShape (m : List Char) : Prop :=
  m[0]? = some '\n' ∧ m[1]? = some '\n' ∧ 3 ≤ m.length ∧
  (∀ i, 2 ≤ i → m[i]? ≠ some '\n') ∧
  (∃ c, m.getLast? = some c ∧ pyWsChar c = false)

theorem markerShape_ne_nil {m : List Char} (h : MarkerShape m) : m ≠ [] := by
  intro hm
  rw [hm] at h
  exact absurd h.2.2.1 (by simp)

theorem markerShape_of_checks {m : List Char}
    (h0 : m[0]? = some '\n') (h1 : m[1]? = some '\n') (h3 : 3 ≤ m.length)
    (hall : (m.drop 2).all (fun c => !(c == '\n')) = true)
    (hlast : ∃ c, m.getLast? = some c ∧ pyWsChar c = false) : MarkerShape m := by
  refine ⟨h0, h1, h3, ?_, hlast⟩
  intro i hi hc
  have hdrop : m[i]? = (m.drop 2)[i - 2]? := by
    rw [List.getElem?_drop]
    congr 1
    omega
  rw [hdrop] at hc
  have := List.all_eq_true.mp hall '\n' (List.getElem?_mem hc)
  simp at this

theorem markerShape_sepThisQuery : MarkerShape sepThisQuery :=
  markerShape_of_checks (by decide) (by decide) (by decide) (by decide)
    ⟨'y', by decide, by decide⟩

theorem markerShape_sepExplanation : MarkerShape sepExplanation :=
  markerShape_of_checks (by decide) (by decide) (by decide) (by decide)
    ⟨'n', by decide, by decide⟩

theorem markerShape_sepNote : MarkerShape sepNote :=
  markerShape_of_checks (by decide) (by decide) (by decide) (by decide)
    ⟨':', by decide, by decide⟩

theorem marker_no_overlap {m m2 s : List Char} {q q2 : Nat}
    (hm : MarkerShape m) (hm2 : MarkerShape m2)
    (h1 : occAtB m s q = true) (h2 : occAtB m2 s q2 = true) (hlt : q < q2) :
    q + m.length ≤ q2 := by
  by_contra hov
  push_neg at hov
  obtain ⟨hm0, hm1, hm3, hmno, -⟩ := hm
  obtain ⟨h20, h21, h23, -, -⟩ := hm2
  have hd1 : 1 ≤ q2 - q := by omega
  have hdlt : q2 - q < m.length := by omega
  have hs2 : s[q2]? = some '\n' := by
    have := occAtB_getElem? h2 0 (by omega)
    simpa [h20] using this
  have hsd : s[q + (q2 - q)]? = m[q2 - q]? := occAtB_getElem? h1 (q2 - q) hdlt
  rw [show q + (q2 - q) = q2 by omega, hs2] at hsd
  have hd1eq : q2 - q = 1 := by
    by_contra hne
    exact hmno (q2 - q) (by omega) hsd.symm
  have hs21 : s[q2 + 1]? = some '\n' := by
    have := occAtB_getElem? h2 1 (by omega)
    simpa [h21] using this
  have hsd2 : s[q + 2]? = m[2]? := occAtB_getElem? h1 2 (by omega)
  rw [show q + 2 = q2 + 1 by omega, hs21] at hsd2
  exact hmno 2 (by omega) hsd2.symm

/-- Minimum of two optional occurrence indices (`none`: no occurrence). -/
def optMin : Option Nat → Option Nat → Option Nat
  | none, b => b
  | some a, none => some a
  | some a, some b => some (min a b)

/-- Keep an optional index only when it lies strictly before the cut `p`. -/
def filtLt (p : Nat) : Option Nat → Option Nat
  | some v => if v < p then some v else none
  | none => none

/-- The leftmost occurrence index, over all separators of `ms`, in `s`. -/
def minOcc (ms : List (List Char)) (s : List Char) : Option Nat :=
  ms.foldr (fun sep acc => optMin (firstOccIdx sep s) acc) none

/-- Truncation as the spec words it: keep the text strictly before the
first (leftmost) explanation marker, trimmed; leave the text alone when no
marker occurs. -/
def specTruncList (ms : List (List Char)) (s : List Char) : List Char :=
  match minOcc ms s with
  | none => s
  | some p => pyStrip (s.take p)

/-- The separator loop as the source performs it: split at each separator in
turn, left to right over the separator list. -/
def seqSplit (ms : List (List Char)) (s : List Char) : List Char :=
  ms.foldl (fun acc sep => splitStep sep acc) s

theorem minOcc_cons {m : List Char} {ms : List (List Char)} {s : List Char} :
    minOcc (m :: ms) s = optMin (firstOccIdx m s) (minOcc ms s) := rfl

theorem minOcc_mem : ∀ {ms : List (List Char)} {s : List Char} {v : Nat},
    minOcc ms s = some v → ∃ m ∈ ms, firstOccIdx m s = some v := by
  intro ms
  induction ms with
  | nil => intro s v h; exact Option.noConfusion h
  | cons m rest ih =>
    intro s v h
    rw [minOcc_cons] at h
    rcases hf : firstOccIdx m s with - | a <;> rw [hf] at h
    · obtain ⟨m2, hm2, hv⟩ := ih h
      exact ⟨m2, List.mem_cons_of_mem m hm2, hv⟩
    · rcases hr : minOcc rest s with - | b <;> rw [hr] at h
      · have hav : a = v := by injection h
        exact ⟨m, List.mem_cons_self m rest, hav ▸ hf⟩
      · have hmv : min a b = v := by injection h
        rcases le_total a b with hab | hab
        · refine ⟨m, List.mem_cons_self m rest, ?_⟩
          rw [hf]
          congr 1
          omega
        · obtain ⟨m2, hm2, hv⟩ := ih hr
          refine ⟨m2, List.mem_cons_of_mem m hm2, ?_⟩
          rw [hv]
          congr 1
          omega

theorem optMin_filtLt (p : Nat) (a b : Option Nat) :
    optMin (filtLt p a) (filtLt p b) = filtLt p (optMin a b) := by
  rcases a with - | x
  · rfl
  · rcases b with - | y
    · by_cases hx : x < p <;> simp [filtLt, optMin, hx]
    · by_cases hx : x < p <;> by_cases hy : y < p
      · have hm : min x y < p := by omega
        simp [filtLt, optMin, hx, hy, hm]
      · have hm : min x y = x := by omega
        simp [filtLt, optMin, hx, hy, hm]
      · have hm : min x y = y := by omega
        simp [filtLt, optMin, hx, hy, hm]
      · have hm : ¬ min x y < p := by omega
        simp [filtLt, optMin, hx, hy, hm]

theorem minOcc_filt_transfer {p : Nat} : ∀ {ms : List (List Char)} {s t : List Char},
    (∀ m ∈ ms, firstOccIdx m t = filtLt p (firstOccIdx m s)) →
    minOcc ms t = filtLt p (minOcc ms s) := by
  intro ms
  induction ms with
  | nil => intro s t _; rfl
  | cons m rest ih =>
    intro s t h
    rw [minOcc_cons, minOcc_cons, h m (List.mem_cons_self m rest),
      ih fun m2 hm2 => h m2 (List.mem_cons_of_mem m hm2), optMin_filtLt]

theorem pyStrip_take_prefixOf {s : List Char} (p : Nat) (hl : pyLStrip s = s) :
    pyStrip (s.take p) <+: s :=
  ((pyStrip_eq_pyRStrip (pyLStrip_take hl p)) ▸ pyRStrip_prefixOf (s.take p)).trans
    (List.take_prefix p s)

theorem firstOcc_strip_take {m m0 s : List Char} {p : Nat}
    (hm : MarkerShape m) (hm0 : MarkerShape m0)
    (hlstrip : pyLStrip s = s)
    (hp : firstOccIdx m0 s = some p) :
    firstOccIdx m (pyStrip (s.take p)) = filtLt p (firstOccIdx m s) := by
  have hmne : m ≠ [] := markerShape_ne_nil hm
  have hteq : pyStrip (s.take p) = pyRStrip (s.take p) :=
    pyStrip_eq_pyRStrip (pyLStrip_take hlstrip p)
  have htpre : pyStrip (s.take p) <+: s := pyStrip_take_prefixOf p hlstrip
  have htlen : (pyStrip (s.take p)).length ≤ p := by
    have h1 : (pyStrip (s.take p)).length ≤ (s.take p).length :=
      List.IsPrefix.length_le (hteq ▸ pyRStrip_prefixOf (s.take p))
    have h2 : (s.take p).length ≤ p := by
      rw [List.length_take]
      omega
    omega
  have hocc0 : occAtB m0 s p = true := (firstOccIdx_spec.mp hp).1
  rcases hfo : firstOccIdx m s with - | v
  · rw [filtLt]
    rw [firstOccIdx_none_iff] at hfo ⊢
    intro j
    rcases hj : occAtB m (pyStrip (s.take p)) j with - | -
    · rfl
    · exfalso
      have := occAtB_of_prefixOf hmne htpre hj
      rw [hfo j] at this
      exact Bool.noConfusion this
  · obtain ⟨hoccv, hminv⟩ := firstOccIdx_spec.mp hfo
    by_cases hvp : v < p
    · rw [filtLt, if_pos hvp]
      apply firstOccIdx_spec.mpr
      constructor
      · have hnov : v + m.length ≤ p := marker_no_overlap hm hm0 hoccv hocc0 hvp
        have h1 : occAtB m (s.take p) v = true := occAtB_take hoccv hnov
        rw [hteq]
        exact occAtB_pyRStrip hmne hm.2.2.2.2 h1
      · intro j hj
        rcases hjo : occAtB m (pyStrip (s.take p)) j with - | -
        · rfl
        · exfalso
          have := occAtB_of_prefixOf hmne htpre hjo
          rw [hminv j (by omega)] at this
          exact Bool.noConfusion this
    · rw [filtLt, if_neg hvp]
      rw [firstOccIdx_none_iff]
      intro j
      rcases hjo : occAtB m (pyStrip (s.take p)) j with - | -
      · rfl
      · exfalso
        have hjs := occAtB_of_prefixOf hmne htpre hjo
        obtain ⟨v2, hv2, hv2le⟩ := firstOcc_le_of_occ hjs
        rw [hfo] at hv2
        have hvv2 : v = v2 := by injection hv2
        have hjlt : j + m.length ≤ (pyStrip (s.take p)).length :=
          occAtB_add_length_le hmne hjo
        have hm3 := hm.2.2.1
        omega

theorem seqSplit_eq_specTrunc : ∀ (ms : List (List Char)) (s : List Char),
    (∀ m ∈ ms, MarkerShape m) → pyLStrip s = s →
    seqSplit ms s = specTruncList ms s := by
  intro ms
  induction ms with
  | nil => intro s _ _; rfl
  | cons m rest ih =>
    intro s hsh hl
    have hm := hsh m (List.mem_cons_self m rest)
    have hrest := fun x hx => hsh x (List.mem_cons_of_mem m hx)
    show seqSplit rest (splitStep m s) = specTruncList (m :: rest) s
    rcases hfo : firstOccIdx m s with - | p
    · have hsub : substrB m s = false := by
        rcases hsb : substrB m s with - | -
        · rfl
        · exfalso
          obtain ⟨q, hq⟩ := substrB_iff_exists_occ.mp hsb
          rw [firstOccIdx_none_iff] at hfo
          rw [hfo q] at hq
          exact Bool.noConfusion hq
      have hstep : splitStep m s = s := by
        rw [splitStep, if_neg (by simp [hsub])]
      rw [hstep, ih s hrest hl, specTruncList, specTruncList, minOcc_cons, hfo]
      rfl
    · have hsub : substrB m s = true :=
        substrB_iff_exists_occ.mpr ⟨p, (firstOccIdx_spec.mp hfo).1⟩
      have hstep : splitStep m s = pyStrip (s.take p) := by
        rw [splitStep, if_pos (by simp [hsub]), takeBeforeFirst_eq_take hfo]
      rw [hstep, ih (pyStrip (s.take p)) hrest (pyLStrip_pyStrip _)]
      have hmin : minOcc rest (pyStrip (s.take p)) = filtLt p (minOcc rest s) :=
        minOcc_filt_transfer fun m2 hm2 =>
          firstOcc_strip_take (hrest m2 hm2) hm hl hfo
      rw [specTruncList, specTruncList, hmin, minOcc_cons, hfo]
      rcases hmr : minOcc rest s with - | v
      · rfl
      · by_cases hvp : v < p
        · have hminpv : min p v = v := by omega
          simp only [filtLt, if_pos hvp, optMin, hminpv]
          have hmint : minOcc rest (pyStrip (s.take p)) = some v := by
            rw [hmin, hmr, filtLt, if_pos hvp]
          obtain ⟨m2, hm2, hv2⟩ := minOcc_mem hmint
          have hocc : occAtB m2 (pyStrip (s.take p)) v = true :=
            (firstOccIdx_spec.mp hv2).1
          have hvlt : v < (pyStrip (s.take p)).length :=
            occAtB_lt_length (markerShape_ne_nil (hrest m2 hm2)) hocc
          obtain ⟨u, hu⟩ := pyStrip_take_prefixOf p hl
          have htake : s.take v = (pyStrip (s.take p)).take v := by
            conv_lhs => rw [← hu]
            exact List.take_append_of_le_length (by omega)
          rw [htake]
        · have hminpv : min p v = p := by omega
          simp only [filtLt, if_neg hvp, optMin, hminpv]

/-- The three explanation separators of `_extract_sql`, in source order. -/
def C9markers : List (List Char) := [sepThisQuery, sepExplanation, sepNote]

theorem C9markers_shape : ∀ m ∈ C9markers, MarkerShape m := by
  intro m hm
  simp only [C9markers, List.mem_cons, List.not_mem_nil, or_false] at hm
  rcases hm with rfl | rfl | rfl
  · exact markerShape_sepThisQuery
  · exact markerShape_sepExplanation
  · exact markerShape_sepNote

theorem truncSteps_eq_seqSplit (s : List Char) : truncSteps s = seqSplit C9markers s := rfl

/-- The extraction pipeline as the amended claim C9 words it: trim; take the
first fenced code block appearing anywhere in the text when the fence
pattern matches (trimmed), otherwise the raw trimmed text; trim; keep only
the text strictly before the first (leftmost) explanation marker, trimmed.
Unlike `extract_sql_list`, the truncation here is a single cut at the
leftmost marker, not the source's sequence of `split` calls. -/
def extractSpecC9 (response_text : String) : String :=
  let sql0 := pyStrip response_text.toList
  let base :=
    match findFirstFence sql0 with
    | some cap => pyStrip cap
    | none => sql0
  (specTruncList C9markers (pyStrip base)).asString

/-- Claim C9 (amended): `_extract_sql` is a pure function of the backend
text; it extracts the first fenced code block appearing anywhere in the
response when the fence pattern matches (tolerating the optional
case-insensitive `sql` language tag), otherwise takes the raw text; trims
leading/trailing whitespace; and truncates the result at the first
explanation marker (a blank line followed by `This query`, `Explanation`,
or `Note:`), keeping only the trimmed text before it — the source's
sequential `split` loop implements exactly this leftmost-marker truncation.
(The claim as stated restricts fence handling to an *enclosing* block; the
counterexample shows a non-enclosing block is extracted as well.) -/
theorem C9_extract_sql_first_marker (response_text : String) :
    _extract_sql response_text = extractSpecC9 response_text := by
  rw [_extract_sql, extractSpecC9, extract_sql_list]
  congr 1
  rw [truncSteps_eq_seqSplit]
  exact seqSplit_eq_specTrunc C9markers _ C9markers_shape (pyLStrip_pyStrip _)

/-- Counterexample to C9 as stated: this response contains a fenced code
block that does not enclose the whole text (prose precedes the opening fence
and follows the closing one), so by the claim the raw trimmed text should be
kept; `_extract_sql` nevertheless extracts the inner block. -/
theorem C9_counterexample :
    _extract_sql "Run this: ```sql\nSELECT 1\n``` thanks" = "SELECT 1" ∧
    takePrefixEq ticks ("Run this: ```sql\nSELECT 1\n``` thanks").toList = none ∧
    (pyStrip ("Run this: ```sql\nSELECT 1\n``` thanks").toList).asString ≠ "SELECT 1" := by
  decide

end SQLAgentic
